import Mathlib

/-!
# Cloud synchronisation of a local directory tree (`kernel/model/osssync.go`)

A shallow embedding of the diff-and-reconcile core of `osssync.go`:

* the two diff procedures `localUpsertRemoveListOSS` (pull direction) and
  `cloudUpsertRemoveListOSS` (push direction);
* the per-file executors `putFileToCloud`, `ossUpload0`, `ossDownload0`, `ossRemove0`;
* the orchestrators `ossDownload` and `ossUpload` with their worker pools, run
  sequentially in list order.

Everything the Go code obtains from outside the file (file system, hashing, HTTP
client, configuration, path functions of the standard library) is a field of `Ops`;
the theorems hold for every choice of these fields.  Stateful collaborators are
functions on an explicit state `σ`.  Calls that only write to the log or to the
user interface (`util.Log*`, `util.Push*`, `util.IncBootProgress`) have no effect
on any returned value and are left out.
-/

set_option autoImplicit false

namespace OssSync

/-! ## Data model -/

/-- A Go `error`: `none` is `nil`, `some msg` is an error with its message. -/
abbrev GoError := Option String

deriving instance DecidableEq for Except

/-- Modelled from the spec: the record type `CloudIndex`, declared outside
`osssync.go`; the code reads its fields `Hash` (a string) and `Size` (an `int64`). -/
structure CloudIndex where
  hash : String
  size : Int
deriving DecidableEq, Repr

/-- What `filepath.Walk` hands to its callback for one visited path: the path and the
two `fs.FileInfo` accessors the code uses, `IsDir()` and `Size()`. -/
structure FileInfo where
  path : String
  isDir : Bool
  size : Int
deriving DecidableEq, Repr

/-- The external collaborators of `osssync.go` that the diff procedures use, over a
state `σ` of the outside world (file system and cloud). -/
structure Ops (σ : Type) where
  /-- `filepath.Join(a, b)` -/
  join : String → String → String
  /-- `filepath.ToSlash` -/
  toSlash : String → String
  /-- `util.CloudSingleFileMaxSizeLimit` -/
  limit : Int
  /-- `filepath.Walk(root, fn)`: the entries `fn` is called on, in visiting order,
  the root itself included. -/
  walk : String → σ → List FileInfo
  /-- `gulu.File.IsExist` -/
  isExist : String → σ → Bool
  /-- `util.GetEtag` -/
  getEtag : String → σ → Except String String
  /-- `getSyncIgnoreList().Values()` -/
  getSyncIgnoreList : σ → List String
  /-- `pathSha246(relPath, sep)` -/
  pathSha246 : String → String → String
  /-- `genCloudIndex(localDirPath, excludes)`: rewrites the local index file. -/
  genCloudIndex : String → List String → σ → GoError × σ

/-- `strings.TrimPrefix(s, pre)`. -/
def trimPrefix (s pre : String) : String :=
  match List.isPrefixOf? pre.data s.data with
  | some rest => String.mk rest
  | none => s

/-! ## Pull direction: `localUpsertRemoveListOSS` -/

/-- The variables the walk callback of `localUpsertRemoveListOSS` updates.  The Go map
`unchanged` only ever receives the value `true`, so it is kept as its list of keys. -/
structure PullWalk where
  localRemoves : List String
  unchanged : List String
deriving DecidableEq, Repr

/-- One call of the walk callback of `localUpsertRemoveListOSS` (lines 640-670). -/
def pullVisit {σ : Type} (ops : Ops σ) (localDirPath : String)
    (cloudFileList : List (String × CloudIndex)) (s : σ) (acc : PullWalk) (e : FileInfo) :
    PullWalk :=
  if localDirPath = e.path then acc
  else if e.isDir then acc
  else
    let relPath := ops.toSlash (trimPrefix e.path localDirPath)
    match cloudFileList.lookup relPath with
    | none =>
      if ops.limit < e.size then acc
      else { acc with localRemoves := acc.localRemoves ++ [e.path] }
    | some cloudIdx =>
      match ops.getEtag e.path s with
      | .error _ => acc
      | .ok localHash =>
        if cloudIdx.hash = localHash then { acc with unchanged := relPath :: acc.unchanged }
        else acc

/-- One iteration of the loop over the remote index in `localUpsertRemoveListOSS`
(lines 672-681). -/
def pullFetchStep {σ : Type} (ops : Ops σ) (unchanged : List String) (cloudFetches : List String)
    (entry : String × CloudIndex) : List String :=
  if entry.1 ∈ unchanged then cloudFetches
  else if ops.limit < entry.2.size then cloudFetches
  else cloudFetches ++ [entry.1]

/-- The three results of `localUpsertRemoveListOSS`. -/
structure PullDiff where
  localRemoves : List String
  cloudFetches : List String
  err : GoError
deriving DecidableEq, Repr

/-- `localUpsertRemoveListOSS(localDirPath, cloudFileList)`.  The Go map `cloudFileList`
is given as its list of entries in the order `range` visits them. -/
def localUpsertRemoveListOSS {σ : Type} (ops : Ops σ) (localDirPath : String)
    (cloudFileList : List (String × CloudIndex)) (s : σ) : PullDiff :=
  let walked := (ops.walk localDirPath s).foldl (pullVisit ops localDirPath cloudFileList s)
    { localRemoves := [], unchanged := [] }
  let cloudFetches := cloudFileList.foldl (pullFetchStep ops walked.unchanged) []
  { localRemoves := walked.localRemoves, cloudFetches := cloudFetches, err := none }

/-! ## Push direction: `cloudUpsertRemoveListOSS` -/

/-- State of the first loop of `cloudUpsertRemoveListOSS`; `err` is set when the loop
is left by its `return`. -/
structure PushScan where
  cloudRemoves : List String
  unchanged : List String
  err : GoError
deriving DecidableEq, Repr

/-- The loop over the remote index in `cloudUpsertRemoveListOSS` (lines 688-705). -/
def pushScan {σ : Type} (ops : Ops σ) (localDirPath : String) (s : σ) :
    List (String × CloudIndex) → List String → List String → PushScan
  | [], cloudRemoves, unchanged =>
    { cloudRemoves := cloudRemoves, unchanged := unchanged, err := none }
  | (cloudFile, cloudIdx) :: rest, cloudRemoves, unchanged =>
    let localCheckPath := ops.join localDirPath cloudFile
    if !ops.isExist localCheckPath s then
      pushScan ops localDirPath s rest (cloudRemoves ++ [cloudFile]) unchanged
    else
      match ops.getEtag localCheckPath s with
      | .error hashErr =>
        { cloudRemoves := cloudRemoves, unchanged := unchanged, err := some hashErr }
      | .ok localHash =>
        if localHash = cloudIdx.hash then
          pushScan ops localDirPath s rest cloudRemoves (localCheckPath :: unchanged)
        else
          pushScan ops localDirPath s rest cloudRemoves unchanged

/-- The exclusion set of `cloudUpsertRemoveListOSS` (lines 707-715), as its list of keys. -/
def pushExcludes {σ : Type} (ops : Ops σ) (localDirPath : String) (s : σ) : List String :=
  (ops.getSyncIgnoreList s).map fun p => ops.join localDirPath (ops.pathSha246 p "/")

/-- One call of the callback of the second walk of `cloudUpsertRemoveListOSS`
(lines 723-740). -/
def pushVisit {σ : Type} (ops : Ops σ) (localDirPath : String) (unchanged excludes : List String)
    (localUpserts : List String) (e : FileInfo) : List String :=
  if localDirPath = e.path || e.isDir then localUpserts
  else if !(decide (e.path ∈ unchanged)) then
    if e.path ∈ excludes then localUpserts
    else if ops.limit < e.size then localUpserts
    else localUpserts ++ [e.path]
  else localUpserts

/-- The three results of `cloudUpsertRemoveListOSS`. -/
structure PushDiff where
  localUpserts : List String
  cloudRemoves : List String
  err : GoError
deriving DecidableEq, Repr

/-- `cloudUpsertRemoveListOSS(localDirPath, cloudFileList)`, together with the state
of the outside world it leaves (`genCloudIndex` writes the local index file). -/
def cloudUpsertRemoveListOSS {σ : Type} (ops : Ops σ) (localDirPath : String)
    (cloudFileList : List (String × CloudIndex)) (s : σ) : PushDiff × σ :=
  let scan := pushScan ops localDirPath s cloudFileList [] []
  match scan.err with
  | some hashErr => ({ localUpserts := [], cloudRemoves := scan.cloudRemoves, err := some hashErr }, s)
  | none =>
    let excludes := pushExcludes ops localDirPath s
    let unchanged := scan.unchanged.filter (· ≠ ops.join localDirPath "index.json")
    match ops.genCloudIndex localDirPath excludes s with
    | (some e, s1) => ({ localUpserts := [], cloudRemoves := scan.cloudRemoves, err := some e }, s1)
    | (none, s1) =>
      let localUpserts := (ops.walk localDirPath s1).foldl
        (pushVisit ops localDirPath unchanged excludes) []
      ({ localUpserts := localUpserts, cloudRemoves := scan.cloudRemoves, err := none }, s1)

/-! ## Transfers: the outside world with its call log -/

/-- A call the transfer code makes on a collaborator; the log of a run lists them in the
order they were made. -/
inductive Event where
  /-- `p.Invoke(arg)` on the worker pool -/
  | invoke (arg : String)
  /-- `os.Stat(path)` -/
  | stat (path : String)
  /-- the request for an upload token for `name` under `dirPath` with `length` bytes -/
  | postUploadToken (dirPath name : String) (length : Int)
  /-- `formUploader.PutFile(ctx, &ret, upToken, key, filePath, nil)` -/
  | putFile (upToken key filePath : String)
  /-- `time.Sleep(seconds * time.Second)` -/
  | sleep (seconds : Nat)
  /-- the request for the download URL of the remote file `path` -/
  | postGetFile (path : String)
  /-- `os.MkdirAll(path, 0755)` -/
  | mkdirAll (path : String)
  /-- `os.Remove(path)` -/
  | remove (path : String)
  /-- `os.RemoveAll(path)` -/
  | removeAll (path : String)
  /-- the download of `url`, with the 15 s client (`short`) or the 2 min client -/
  | getFile (url : String) (short : Bool)
  /-- `gulu.File.WriteFileSafer(path, data, 0644)` with `size = len(data)` -/
  | writeFileSafer (path : String) (size : Nat)
  /-- the request to remove `paths` under `dirPath` in the cloud -/
  | postRemoveFile (dirPath : String) (paths : List String)
  /-- `getCloudFileListOSS(cloudDirPath)` -/
  | getCloudFileList (cloudDirPath : String)
deriving DecidableEq, Repr

/-- The decoded answer of a cloud API request: HTTP status, and the fields `code`, `msg`
and the one string of `data` the caller reads (`token` or `url`). -/
structure ApiResp where
  statusCode : Int
  code : Int
  msg : String
  data : String
deriving DecidableEq, Repr

/-- The answer of a file download: HTTP status and the result of `resp.ToBytes()`. -/
structure FileResp where
  statusCode : Int
  body : Except String (List UInt8)

/-- The collaborators of the transfer code, on top of those of the diff procedures.
Requests carry the ambient user token and user id, which are part of the outside
world. -/
structure Net (σ : Type) extends Ops σ where
  /-- `os.Stat(path)`, reduced to `info.Size()` -/
  stat : String → σ → Except String Int
  /-- `Post(.../getSiYuanFileUploadToken)` with body `dirPath`, `name`, `length` -/
  postUploadToken : String → String → Int → σ → Except String ApiResp × σ
  /-- `formUploader.PutFile` with arguments `upToken`, `key`, `filePath` -/
  putFile : String → String → String → σ → GoError × σ
  /-- `time.Sleep` of the given number of seconds -/
  sleep : Nat → σ → σ
  /-- `Post(.../getSiYuanFile)` with body `path` -/
  postGetFile : String → σ → Except String ApiResp × σ
  /-- `os.MkdirAll(path, 0755)` -/
  mkdirAll : String → σ → GoError × σ
  /-- `os.Remove(path)`, whose result the code ignores -/
  remove : String → σ → σ
  /-- `os.RemoveAll(path)` -/
  removeAll : String → σ → GoError × σ
  /-- `Get(url)` with the 15 s client (`true`) or the 2 min client (`false`) -/
  getFile : String → Bool → σ → Except String FileResp × σ
  /-- `gulu.File.WriteFileSafer(path, data, 0644)` -/
  writeFileSafer : String → List UInt8 → σ → GoError × σ
  /-- `Post(.../removeSiYuanFile)` with body `dirPath`, `paths` -/
  postRemoveFile : String → List String → σ → Except String ApiResp × σ
  /-- `getCloudFileListOSS(cloudDirPath)`: the remote index, downloaded and decoded -/
  getCloudFileList : String → σ → Except String (List (String × CloudIndex)) × σ
  /-- `getLocalFileListOSS(cloudDirPath)`: the cached local index, read and decoded -/
  getLocalFileList : String → σ → Except String (List (String × CloudIndex))
  /-- `path.Join(elems...)` -/
  pathJoin : List String → String
  /-- `filepath.Dir` -/
  dir : String → String
  /-- `Conf.User.UserId` -/
  userId : String
  /-- `Conf.System.ID` -/
  systemID : String
  /-- `Conf.Language(n)` -/
  language : Nat → String
  /-- `fmt.Sprintf(format, arg)` for a format with one verb -/
  sprintf : String → String → String
  /-- the message of `ErrFailedToConnectCloudServer` -/
  errFailedToConnectCloudServer : String

/-- The outside world during a transfer: its state and the log of the calls made. -/
structure World (σ : Type) where
  ext : σ
  log : List Event

/-- Record the call `e`, which left the outside world in state `s`. -/
def World.record {σ : Type} (w : World σ) (e : Event) (s : σ) : World σ :=
  { ext := s, log := w.log ++ [e] }

/-- The outcome of one transfer function: the world it leaves, the two counters it
received by pointer, and its error result. -/
structure Transfer (σ : Type) where
  world : World σ
  files : Nat
  transferSize : Nat
  err : GoError

/-- `uint64(n)` for an `int64` value `n`. -/
def toUint64 (n : Int) : Nat := (n % 2 ^ 64).toNat

/-! ## Transfers: the per-file executors -/

/-- `putFileToCloud(filePath, key, upToken)` (lines 744-758). -/
def putFileToCloud {σ : Type} (net : Net σ) (filePath key upToken : String) (w : World σ) :
    GoError × World σ :=
  match net.putFile upToken key filePath w.ext with
  | (none, s1) => (none, w.record (.putFile upToken key filePath) s1)
  | (some _, s1) =>
    let w1 := w.record (.putFile upToken key filePath) s1
    let w2 := w1.record (.sleep 3) (net.sleep 3 w1.ext)
    match net.putFile upToken key filePath w2.ext with
    | (some err, s2) => (some err, w2.record (.putFile upToken key filePath) s2)
    | (none, s2) => (none, w2.record (.putFile upToken key filePath) s2)

/-- `getOssUploadToken(filename, cloudDirPath, length)` (lines 448-487): the token and
the error. -/
def getOssUploadToken {σ : Type} (net : Net σ) (filename cloudDirPath : String) (length : Int)
    (w : World σ) : (String × GoError) × World σ :=
  match net.postUploadToken cloudDirPath filename length w.ext with
  | (.error err, s1) =>
    (("", some (net.sprintf (net.language 94) err)),
      w.record (.postUploadToken cloudDirPath filename length) s1)
  | (.ok resp, s1) =>
    let w1 := w.record (.postUploadToken cloudDirPath filename length) s1
    if 200 ≠ resp.statusCode then
      if 401 = resp.statusCode then
        (("", some (net.sprintf (net.language 94) (net.language 31))), w1)
      else
        (("", some (net.sprintf (net.language 94) (toString resp.statusCode))), w1)
    else if 0 ≠ resp.code then
      (("", some (net.sprintf (net.language 93) resp.msg)), w1)
    else
      ((resp.data, none), w1)

/-- `ossUpload0(localDirPath, cloudDirPath, localUpsert, &wroteFiles, &transferSize)`
(lines 423-446). -/
def ossUpload0 {σ : Type} (net : Net σ) (localDirPath cloudDirPath localUpsert : String)
    (wroteFiles transferSize : Nat) (w : World σ) : Transfer σ :=
  let w1 := w.record (.stat localUpsert) w.ext
  match net.stat localUpsert w.ext with
  | .error statErr =>
    { world := w1, files := wroteFiles, transferSize := transferSize, err := some statErr }
  | .ok size =>
    let filename := net.toSlash (trimPrefix localUpsert localDirPath)
    match getOssUploadToken net filename cloudDirPath size w1 with
    | ((_, some err), w2) =>
      { world := w2, files := wroteFiles, transferSize := transferSize, err := some err }
    | ((upToken, none), w2) =>
      let key := net.pathJoin ["siyuan", net.userId, cloudDirPath, filename]
      match putFileToCloud net localUpsert key upToken w2 with
      | (some err, w3) =>
        { world := w3, files := wroteFiles, transferSize := transferSize,
          err := some (net.sprintf (net.language 94) err) }
      | (none, w3) =>
        { world := w3, files := wroteFiles + 1,
          transferSize := (transferSize + toUint64 size) % 2 ^ 64, err := none }

/-- `ossRemove0(cloudDirPath, removes)` (lines 394-421). -/
def ossRemove0 {σ : Type} (net : Net σ) (cloudDirPath : String) (removes : List String)
    (w : World σ) : GoError × World σ :=
  if 1 > removes.length then (none, w)
  else
    match net.postRemoveFile cloudDirPath removes w.ext with
    | (.error _, s1) =>
      (some net.errFailedToConnectCloudServer, w.record (.postRemoveFile cloudDirPath removes) s1)
    | (.ok resp, s1) =>
      let w1 := w.record (.postRemoveFile cloudDirPath removes) s1
      if 401 = resp.statusCode then (some (net.language 31), w1)
      else if 200 ≠ resp.statusCode then
        (some ("remove cloud file failed [sc=" ++ toString resp.statusCode ++ "]"), w1)
      else (none, w1)

/-- `ossDownload0(localDirPath, cloudDirPath, fetch, &fetchedFiles, &transferSize,
bootORExit)` (lines 233-305). -/
def ossDownload0 {σ : Type} (net : Net σ) (localDirPath cloudDirPath fetch : String)
    (fetchedFiles transferSize : Nat) (bootORExit : Bool) (w : World σ) : Transfer σ :=
  let localFilePath := net.join localDirPath fetch
  let remoteFileURL := net.pathJoin [cloudDirPath, fetch]
  let fail := fun (w' : World σ) (err : String) =>
    ({ world := w', files := fetchedFiles, transferSize := transferSize, err := some err } :
      Transfer σ)
  match net.postGetFile remoteFileURL w.ext with
  | (.error err, s1) =>
    fail (w.record (.postGetFile remoteFileURL) s1) (net.sprintf (net.language 93) err)
  | (.ok resp, s1) =>
    let w1 := w.record (.postGetFile remoteFileURL) s1
    if 200 ≠ resp.statusCode then
      if 401 = resp.statusCode then
        fail w1 (net.sprintf (net.language 93) "account authentication failed, please login again")
      else
        fail w1 (net.sprintf (net.language 93) "download file URL failed")
    else if 0 ≠ resp.code then
      fail w1 (net.sprintf (net.language 93) resp.msg)
    else
      let downloadURL := resp.data
      match net.mkdirAll (net.dir localFilePath) w1.ext with
      | (some err, s2) => fail (w1.record (.mkdirAll (net.dir localFilePath)) s2) err
      | (none, s2) =>
        let w2 := w1.record (.mkdirAll (net.dir localFilePath)) s2
        let w3 := w2.record (.remove localFilePath) (net.remove localFilePath w2.ext)
        match net.getFile downloadURL bootORExit w3.ext with
        | (.error err, s4) =>
          fail (w3.record (.getFile downloadURL bootORExit) s4)
            (net.sprintf (net.language 93) err)
        | (.ok fileResp, s4) =>
          let w4 := w3.record (.getFile downloadURL bootORExit) s4
          if 200 ≠ fileResp.statusCode then
            if 404 = fileResp.statusCode then
              fail w4 (net.sprintf (net.language 93) (net.language 135))
            else
              fail w4 (net.sprintf (net.language 93)
                ("download file failed [" ++ toString fileResp.statusCode ++ "]"))
          else
            match fileResp.body with
            | .error _ => fail w4 (net.sprintf (net.language 93) "download read data failed")
            | .ok data =>
              match net.writeFileSafer localFilePath data w4.ext with
              | (some err, s5) =>
                fail (w4.record (.writeFileSafer localFilePath data.length) s5)
                  (net.sprintf (net.language 93) err)
              | (none, s5) =>
                { world := w4.record (.writeFileSafer localFilePath data.length) s5,
                  files := fetchedFiles + 1,
                  transferSize := (transferSize + data.length) % 2 ^ 64,
                  err := none }

/-! ## Transfers: the worker pools, run sequentially in list order -/

/-- The variables shared by the workers of a pool and the enclosing function: the world,
the two counters, the named result `err` and the error flag (`downloadErr` or
`uploadErr`). -/
structure PoolState (σ : Type) where
  world : World σ
  files : Nat
  transferSize : Nat
  err : GoError
  flag : GoError

/-- `p.Invoke(arg)` as far as the dispatching loop is concerned: the hand-over of `arg`
to the pool is recorded in the log. -/
def PoolState.invoked {σ : Type} (st : PoolState σ) (arg : String) : PoolState σ :=
  { st with world := st.world.record (.invoke arg) st.world.ext }

/-- The variables when a pool is created in the world `w`: the counters are zero, the
named result `err` and the error flag are nil. -/
def poolInit {σ : Type} (w : World σ) : PoolState σ :=
  { world := w, files := 0, transferSize := 0, err := none, flag := none }

/-- The worker function of the pool of `ossDownload` (lines 193-212) on `arg`. -/
def downloadWorker {σ : Type} (net : Net σ) (localDirPath cloudDirPath : String)
    (bootOrExit : Bool) (arg : String) (st : PoolState σ) : PoolState σ :=
  if st.flag ≠ none then st
  else
    let r := ossDownload0 net localDirPath cloudDirPath arg st.files st.transferSize bootOrExit
      st.world
    match r.err with
    | some err =>
      { world := r.world, files := r.files, transferSize := r.transferSize,
        err := some err, flag := some err }
    | none =>
      { world := r.world, files := r.files, transferSize := r.transferSize,
        err := none, flag := st.flag }

/-- The dispatch loop of `ossDownload` (lines 213-217): every fetch is handed to the pool
and its worker runs to completion before the next one is handed over. -/
def downloadDispatch {σ : Type} (net : Net σ) (localDirPath cloudDirPath : String)
    (bootOrExit : Bool) : List String → PoolState σ → PoolState σ
  | [], st => st
  | fetch :: rest, st =>
    downloadDispatch net localDirPath cloudDirPath bootOrExit rest
      (downloadWorker net localDirPath cloudDirPath bootOrExit fetch (st.invoked fetch))

/-- The three results of `ossDownload` and of `ossUpload`. -/
structure TransferResult where
  files : Nat
  transferSize : Nat
  err : GoError
deriving DecidableEq, Repr

/-- The pool of `ossDownload` from its creation to `waitGroup.Wait()` (lines 186-218). -/
def downloadPool {σ : Type} (net : Net σ) (localDirPath cloudDirPath : String)
    (bootOrExit : Bool) (cloudFetches : List String) (w : World σ) : PoolState σ :=
  downloadDispatch net localDirPath cloudDirPath bootOrExit cloudFetches (poolInit w)

/-- `ossDownload` from line 186 on: the transfer of `cloudFetches`. -/
def ossDownloadFrom {σ : Type} (net : Net σ) (localDirPath cloudDirPath : String)
    (bootOrExit : Bool) (cloudFetches : List String) (w : World σ) :
    TransferResult × World σ :=
  let st := downloadPool net localDirPath cloudDirPath bootOrExit cloudFetches w
  match st.flag with
  | some downloadErr =>
    ({ files := st.files, transferSize := st.transferSize, err := some downloadErr }, st.world)
  | none => ({ files := st.files, transferSize := st.transferSize, err := st.err }, st.world)

/-- The loop of `ossDownload` that removes the local files (lines 179-184). -/
def removeLocals {σ : Type} (net : Net σ) : List String → World σ → GoError × World σ
  | [], w => (none, w)
  | localRemove :: rest, w =>
    match net.removeAll localRemove w.ext with
    | (some err, s1) => (some err, w.record (.removeAll localRemove) s1)
    | (none, s1) => removeLocals net rest (w.record (.removeAll localRemove) s1)

/-- `ossDownload(localDirPath, cloudDirPath, bootOrExit)` (lines 164-231). -/
def ossDownload {σ : Type} (net : Net σ) (localDirPath cloudDirPath : String)
    (bootOrExit : Bool) (w : World σ) : TransferResult × World σ :=
  if !net.isExist localDirPath w.ext then ({ files := 0, transferSize := 0, err := none }, w)
  else
    match net.getCloudFileList cloudDirPath w.ext with
    | (.error err, s1) =>
      ({ files := 0, transferSize := 0, err := some err },
        w.record (.getCloudFileList cloudDirPath) s1)
    | (.ok cloudFileList, s1) =>
      let w1 := w.record (.getCloudFileList cloudDirPath) s1
      let diff := localUpsertRemoveListOSS net.toOps localDirPath cloudFileList w1.ext
      match diff.err with
      | some err => ({ files := 0, transferSize := 0, err := some err }, w1)
      | none =>
        match removeLocals net diff.localRemoves w1 with
        | (some err, w2) => ({ files := 0, transferSize := 0, err := some err }, w2)
        | (none, w2) =>
          ossDownloadFrom net localDirPath cloudDirPath bootOrExit diff.cloudFetches w2

/-- The worker function of the pool of `ossUpload` (lines 341-359) on `arg`. -/
def uploadWorker {σ : Type} (net : Net σ) (localDirPath cloudDirPath : String)
    (arg : String) (st : PoolState σ) : PoolState σ :=
  if st.flag ≠ none then st
  else
    let r := ossUpload0 net localDirPath cloudDirPath arg st.files st.transferSize st.world
    match r.err with
    | some err =>
      { world := r.world, files := r.files, transferSize := r.transferSize,
        err := some err, flag := some err }
    | none =>
      { world := r.world, files := r.files, transferSize := r.transferSize,
        err := none, flag := st.flag }

/-- The dispatch loop of `ossUpload` (lines 360-372) with the variable `index`, in the
sequential schedule: the local index file is remembered and skipped, every other upsert
is handed to the pool and its worker runs to completion before the next one is handed
over.  The pool itself runs up to four workers at once; `poolStep` gives their steps one
by one. -/
def uploadDispatch {σ : Type} (net : Net σ) (localDirPath cloudDirPath localIndex : String) :
    List String → String → PoolState σ → String × PoolState σ
  | [], index, st => (index, st)
  | localUpsert :: rest, index, st =>
    if localIndex = localUpsert then
      uploadDispatch net localDirPath cloudDirPath localIndex rest localUpsert st
    else
      uploadDispatch net localDirPath cloudDirPath localIndex rest index
        (uploadWorker net localDirPath cloudDirPath localUpsert (st.invoked localUpsert))

/-- The pool of `ossUpload` from its creation to `waitGroup.Wait()` (lines 333-374): the
final value of `index` and of the shared variables. -/
def uploadPool {σ : Type} (net : Net σ) (localDirPath cloudDirPath : String)
    (localUpserts : List String) (w : World σ) : String × PoolState σ :=
  uploadDispatch net localDirPath cloudDirPath (net.join localDirPath "index.json")
    localUpserts "" (poolInit w)

/-- `ossUpload` from line 333 on: the transfer of `localUpserts`, the separate upload of
the index and the removal of `cloudRemoves`. -/
def ossUploadFrom {σ : Type} (net : Net σ) (localDirPath cloudDirPath : String)
    (localUpserts cloudRemoves : List String) (w : World σ) : TransferResult × World σ :=
  let (index, st) := uploadPool net localDirPath cloudDirPath localUpserts w
  match st.flag with
  | some uploadErr =>
    ({ files := st.files, transferSize := st.transferSize, err := some uploadErr }, st.world)
  | none =>
    let r := ossUpload0 net localDirPath cloudDirPath index st.files st.transferSize st.world
    match r.err with
    | some uploadErr =>
      ({ files := r.files, transferSize := r.transferSize, err := some uploadErr }, r.world)
    | none =>
      match ossRemove0 net cloudDirPath cloudRemoves r.world with
      | (err, w') => ({ files := r.files, transferSize := r.transferSize, err := err }, w')

/-- `ossUpload(localDirPath, cloudDirPath, cloudDevice, boot)` (lines 307-392); `boot` only
selects the progress reporting and is left out. -/
def ossUpload {σ : Type} (net : Net σ) (localDirPath cloudDirPath cloudDevice : String)
    (w : World σ) : TransferResult × World σ :=
  if !net.isExist localDirPath w.ext then ({ files := 0, transferSize := 0, err := none }, w)
  else
    let listed : Except String (List (String × CloudIndex)) × World σ :=
      if "" ≠ net.systemID ∧ net.systemID = cloudDevice then
        match net.getLocalFileList cloudDirPath w.ext with
        | .ok cloudFileList => (.ok cloudFileList, w)
        | .error _ =>
          match net.getCloudFileList cloudDirPath w.ext with
          | (r, s1) => (r, w.record (.getCloudFileList cloudDirPath) s1)
      else
        match net.getCloudFileList cloudDirPath w.ext with
        | (r, s1) => (r, w.record (.getCloudFileList cloudDirPath) s1)
    match listed with
    | (.error err, w1) => ({ files := 0, transferSize := 0, err := some err }, w1)
    | (.ok cloudFileList, w1) =>
      match cloudUpsertRemoveListOSS net.toOps localDirPath cloudFileList w1.ext with
      | (diff, s2) =>
        let w2 : World σ := { ext := s2, log := w1.log }
        match diff.err with
        | some err => ({ files := 0, transferSize := 0, err := some err }, w2)
        | none => ossUploadFrom net localDirPath cloudDirPath diff.localUpserts diff.cloudRemoves w2

/-! ## Transfers: the workers of the upload pool, step by step

The pool of `ossUpload` runs up to `min(4, len(localUpserts))` workers at once, and the
worker function reads and writes the captured variables `err`, `uploadErr`, `wroteFiles`
and `transferSize` without synchronisation.  Here each worker is cut into the three
parts between which another worker can run; one run of the pool is a list of such
steps. -/

/-- A step of a run of the upload pool. -/
inductive PoolStep where
  /-- the dispatching loop hands `arg` to the pool: `p.Invoke(arg)` (line 371) -/
  | invoke (arg : String)
  /-- the worker on `arg` tests `uploadErr` and returns if it is set (lines 343-345) -/
  | enter (arg : String)
  /-- the worker on `arg` runs `err = ossUpload0(...)` (line 347) -/
  | transfer (arg : String)
  /-- the worker on `arg` tests `err` and, if it is set, sets `uploadErr` (lines 348-351) -/
  | observe (arg : String)
deriving DecidableEq, Repr

/-- The pool in the middle of a run: the shared variables, the workers that have passed
the test of `uploadErr` and not yet run line 347, and the workers that have run line 347
and not yet tested `err`. -/
structure RaceState (σ : Type) where
  shared : PoolState σ
  entered : List String
  returned : List String

/-- One step of a run of the upload pool (lines 341-351 and 371). -/
def poolStep {σ : Type} (net : Net σ) (localDirPath cloudDirPath : String)
    (rs : RaceState σ) : PoolStep → RaceState σ
  | .invoke arg => { rs with shared := rs.shared.invoked arg }
  | .enter arg =>
    if rs.shared.flag ≠ none then rs
    else { rs with entered := arg :: rs.entered }
  | .transfer arg =>
    if arg ∈ rs.entered then
      let r := ossUpload0 net localDirPath cloudDirPath arg rs.shared.files
        rs.shared.transferSize rs.shared.world
      { shared := { world := r.world, files := r.files, transferSize := r.transferSize,
                    err := r.err, flag := rs.shared.flag },
        entered := rs.entered.erase arg,
        returned := arg :: rs.returned }
    else rs
  | .observe arg =>
    if arg ∈ rs.returned then
      match rs.shared.err with
      | some err =>
        { shared := { rs.shared with flag := some err },
          entered := rs.entered,
          returned := rs.returned.erase arg }
      | none => { rs with returned := rs.returned.erase arg }
    else rs

/-- A run of the upload pool: the steps in the order in which they take place. -/
def runPoolSteps {σ : Type} (net : Net σ) (localDirPath cloudDirPath : String)
    (steps : List PoolStep) (rs : RaceState σ) : RaceState σ :=
  steps.foldl (poolStep net localDirPath cloudDirPath) rs

/-- `ossUpload` after `waitGroup.Wait()` (lines 374-392), from the value of `index` and the
shared variables the pool leaves. -/
def ossUploadRest {σ : Type} (net : Net σ) (localDirPath cloudDirPath : String)
    (cloudRemoves : List String) (index : String) (st : PoolState σ) :
    TransferResult × World σ :=
  match st.flag with
  | some uploadErr =>
    ({ files := st.files, transferSize := st.transferSize, err := some uploadErr }, st.world)
  | none =>
    let r := ossUpload0 net localDirPath cloudDirPath index st.files st.transferSize st.world
    match r.err with
    | some uploadErr =>
      ({ files := r.files, transferSize := r.transferSize, err := some uploadErr }, r.world)
    | none =>
      match ossRemove0 net cloudDirPath cloudRemoves r.world with
      | (err, w') => ({ files := r.files, transferSize := r.transferSize, err := err }, w')

/-! ## Auxiliary definitions used to state the properties of the diff procedures -/

/-- The entries of the second walk that `pushVisit` appends to `localUpserts`. -/
def pushKeeps {σ : Type} (ops : Ops σ) (localDirPath : String) (unchanged excludes : List String)
    (e : FileInfo) : Bool :=
  !(decide (localDirPath = e.path) || e.isDir) && !(decide (e.path ∈ unchanged)) &&
    !(decide (e.path ∈ excludes)) && !(decide (ops.limit < e.size))

/-- The `unchanged` set of the push diff once the mark of the index file is deleted. -/
def pushUnchanged {σ : Type} (ops : Ops σ) (localDirPath : String)
    (cloudFileList : List (String × CloudIndex)) (s : σ) : List String :=
  (pushScan ops localDirPath s cloudFileList [] []).unchanged.filter
    (· ≠ ops.join localDirPath "index.json")

/-- The walked entries that `pullVisit` appends to `localRemoves`. -/
def pullRemoves {σ : Type} (ops : Ops σ) (localDirPath : String)
    (cloudFileList : List (String × CloudIndex)) (e : FileInfo) : Bool :=
  !(decide (localDirPath = e.path)) && !e.isDir &&
    (cloudFileList.lookup (ops.toSlash (trimPrefix e.path localDirPath))).isNone &&
    !(decide (ops.limit < e.size))

/-- The remote entries that `pullFetchStep` appends to `cloudFetches`. -/
def pullFetches {σ : Type} (ops : Ops σ) (unchanged : List String) (entry : String × CloudIndex) :
    Bool :=
  !(decide (entry.1 ∈ unchanged)) && !(decide (ops.limit < entry.2.size))

/-! ## Auxiliary definitions used to state the properties of the transfers -/

/-- The arguments handed to the worker pool, in the order of the log. -/
def invokes (log : List Event) : List String :=
  log.filterMap fun e => match e with
    | .invoke arg => some arg
    | _ => none

/-- The paths on which `os.Stat` was called (the first step of every `ossUpload0`), in
the order of the log. -/
def statCalls (log : List Event) : List String :=
  log.filterMap fun e => match e with
    | .stat path => some path
    | _ => none

/-- The remote paths whose download URL was requested (the first step of every
`ossDownload0`), in the order of the log. -/
def postGetFileCalls (log : List Event) : List String :=
  log.filterMap fun e => match e with
    | .postGetFile path => some path
    | _ => none

/-- The number of `PutFile` calls in a log. -/
def putFileCount (log : List Event) : Nat :=
  (log.filter fun e => match e with
    | .putFile _ _ _ => true
    | _ => false).length

/-- The requests to remove cloud files, with the directory and the paths they carry,
in the order of the log. -/
def removeCalls (log : List Event) : List (String × List String) :=
  log.filterMap fun e => match e with
    | .postRemoveFile dirPath paths => some (dirPath, paths)
    | _ => none

/-- The separate upload of the index in `ossUpload` (line 381): `ossUpload0` on the
variable `index`, with the counters and in the world the pool leaves. -/
def indexUpload {σ : Type} (net : Net σ) (localDirPath cloudDirPath : String)
    (localUpserts : List String) (w : World σ) : Transfer σ :=
  ossUpload0 net localDirPath cloudDirPath
    (uploadPool net localDirPath cloudDirPath localUpserts w).1
    (uploadPool net localDirPath cloudDirPath localUpserts w).2.files
    (uploadPool net localDirPath cloudDirPath localUpserts w).2.transferSize
    (uploadPool net localDirPath cloudDirPath localUpserts w).2.world

/-- The remote index `ossUpload` works with (lines 312-323): the cached local index when
this device wrote the cloud state last and the cache can be read, the downloaded one
otherwise. -/
def uploadListing {σ : Type} (net : Net σ) (cloudDirPath cloudDevice : String) (w : World σ) :
    Except String (List (String × CloudIndex)) × World σ :=
  if "" ≠ net.systemID ∧ net.systemID = cloudDevice then
    match net.getLocalFileList cloudDirPath w.ext with
    | .ok cloudFileList => (.ok cloudFileList, w)
    | .error _ =>
      match net.getCloudFileList cloudDirPath w.ext with
      | (r, s1) => (r, w.record (.getCloudFileList cloudDirPath) s1)
  else
    match net.getCloudFileList cloudDirPath w.ext with
    | (r, s1) => (r, w.record (.getCloudFileList cloudDirPath) s1)

/-! ## A small concrete outside world, used to evaluate the definitions -/

/-- A file or directory of the concrete world, with the result `util.GetEtag` gives on it. -/
structure DemoFile where
  info : FileInfo
  etag : Except String String

/-- A concrete outside world: the entries of one directory tree in walking order
(root first) and the sync ignore list. -/
structure DemoWorld where
  files : List DemoFile
  ignores : List String
  /-- local paths whose next `PutFile` fails; each failure consumes one occurrence -/
  putFailures : List String := []
  /-- remote paths for which the request of a download URL fails -/
  unreachable : List String := []

/-- `filepath.Join(a, b)` on Unix for a clean `a` and a `b` made of plain names,
with or without a leading slash. -/
def demoJoin (a b : String) : String :=
  if b.data.head? = some '/' then a ++ b else a ++ "/" ++ b

/-- An index generator that writes `localDirPath/index.json` (2 bytes, hash `IDX`). -/
def demoGenCloudIndex (localDirPath : String) (_excludes : List String) (s : DemoWorld) :
    GoError × DemoWorld :=
  let p := demoJoin localDirPath "index.json"
  (none, { s with files := s.files.filter (fun f => f.info.path ≠ p) ++
      [{ info := { path := p, isDir := false, size := 2 }, etag := .ok "IDX" }] })

/-- The collaborators over `DemoWorld`, with a size limit of 100 MB. -/
def demoOps : Ops DemoWorld where
  join := demoJoin
  toSlash := id
  limit := 104857600
  walk := fun root s =>
    (s.files.filter fun f => f.info.path = root ∨ (root ++ "/").data.isPrefixOf f.info.path.data).map
      (·.info)
  isExist := fun p s => s.files.any fun f => f.info.path = p
  getEtag := fun p s =>
    match s.files.find? fun f => f.info.path = p with
    | some f => f.etag
    | none => .error "no such file"
  getSyncIgnoreList := fun s => s.ignores
  pathSha246 := fun p _ => p
  genCloudIndex := demoGenCloudIndex

/-- The transfer collaborators over `DemoWorld`: tokens and download URLs are always
granted except for the `unreachable` remote paths, every download delivers three bytes,
and `PutFile` fails as scripted by `putFailures`. -/
def demoNet : Net DemoWorld where
  toOps := demoOps
  stat := fun p s =>
    if p = "" then .error "stat : no such file or directory"
    else
      match s.files.find? fun f => f.info.path = p with
      | some f => .ok f.info.size
      | none => .error "stat: no such file"
  postUploadToken := fun _ name _ s =>
    (.ok { statusCode := 200, code := 0, msg := "", data := "token:" ++ name }, s)
  putFile := fun _ _ filePath s =>
    if filePath ∈ s.putFailures then
      (some "put failed", { s with putFailures := s.putFailures.erase filePath })
    else (none, s)
  sleep := fun _ s => s
  postGetFile := fun path s =>
    if path ∈ s.unreachable then (.error "timeout", s)
    else (.ok { statusCode := 200, code := 0, msg := "", data := "https://cdn/" ++ path }, s)
  mkdirAll := fun _ s => (none, s)
  remove := fun _ s => s
  removeAll := fun _ s => (none, s)
  getFile := fun _ _ s => (.ok { statusCode := 200, body := .ok [1, 2, 3] }, s)
  writeFileSafer := fun _ _ s => (none, s)
  postRemoveFile := fun _ _ s => (.ok { statusCode := 200, code := 0, msg := "", data := "" }, s)
  getCloudFileList := fun _ s => (.ok [], s)
  getLocalFileList := fun _ _ => .error "no local index"
  pathJoin := fun elems => elems.foldl (fun acc e => if acc = "" then e else demoJoin acc e) ""
  dir := fun p => String.mk ((p.data.reverse.dropWhile (· ≠ '/')).drop 1).reverse
  userId := "u1"
  systemID := "dev1"
  language := fun n => "L" ++ toString n ++ ": "
  sprintf := fun format arg => format ++ arg
  errFailedToConnectCloudServer := "failed to connect cloud server"

/-- The world `s` with an empty call log. -/
def freshWorld (s : DemoWorld) : World DemoWorld := { ext := s, log := [] }

/-- A tree with three data files and the index file. -/
def uploadLocal : DemoWorld :=
  { files := [{ info := { path := "w", isDir := true, size := 0 }, etag := .error "is a directory" },
      { info := { path := "w/a.txt", isDir := false, size := 10 }, etag := .ok "H1" },
      { info := { path := "w/b.txt", isDir := false, size := 20 }, etag := .ok "H2" },
      { info := { path := "w/c.txt", isDir := false, size := 30 }, etag := .ok "H3" },
      { info := { path := "w/index.json", isDir := false, size := 2 }, etag := .ok "IDX" }],
    ignores := [] }

/-- A regular file of the concrete world. -/
def demoFile (path hash : String) (size : Int) : DemoFile :=
  { info := { path := path, isDir := false, size := size }, etag := .ok hash }

/-- A directory of the concrete world; hashing a directory fails. -/
def demoDir (path : String) : DemoFile :=
  { info := { path := path, isDir := true, size := 0 }, etag := .error "is a directory" }

/-- The scenario of the specification: local `a.txt` (hash `H1`) and `b.txt` (hash `H2`)
in the directory `w`. -/
def scenarioLocal : DemoWorld :=
  { files := [demoDir "w", demoFile "w/a.txt" "H1" 10, demoFile "w/b.txt" "H2" 20], ignores := [] }

/-- The scenario of the specification: the remote index has `a.txt` (hash `H1`) and
`c.txt` (hash `H3`). -/
def scenarioRemote : List (String × CloudIndex) :=
  [("a.txt", { hash := "H1", size := 10 }), ("c.txt", { hash := "H3", size := 30 })]

/-- The scenario of the specification with the keys the pull direction looks up
(relative paths keep their leading slash): remote `a.txt` (hash `H1`) and `c.txt`
(hash `H3`, larger than the limit). -/
def scenarioRemotePull : List (String × CloudIndex) :=
  [("/a.txt", { hash := "H1", size := 10 }), ("/c.txt", { hash := "H3", size := 104857601 })]

/-- A tree whose remote index is up to date: local `a.txt` (hash `H1`) and the index
file `index.json` as the index generator writes it (2 bytes, hash `IDX`). -/
def syncedLocal : DemoWorld :=
  { files := [demoDir "w", demoFile "w/a.txt" "H1" 10, demoFile "w/index.json" "IDX" 2],
    ignores := [] }

/-- The remote index recording exactly the files of `syncedLocal` with their hashes. -/
def syncedRemote : List (String × CloudIndex) :=
  [("a.txt", { hash := "H1", size := 10 }), ("index.json", { hash := "IDX", size := 2 })]

/-- A tree in which `a.txt` exists but cannot be hashed. -/
def unreadableLocal : DemoWorld :=
  { files := [demoDir "w",
      { info := { path := "w/a.txt", isDir := false, size := 10 }, etag := .error "permission denied" },
      demoFile "w/b.txt" "H2" 20],
    ignores := [] }

/-- A remote index with entries for `a.txt` and `b.txt`, keyed as the push direction
joins them. -/
def unreadableRemote : List (String × CloudIndex) :=
  [("a.txt", { hash := "H1", size := 10 }), ("b.txt", { hash := "H2", size := 20 })]

/-- The tree `uploadLocal` in a world where both `PutFile` attempts on `w/a.txt` fail. -/
def lostFailureWorld : DemoWorld :=
  { uploadLocal with putFailures := ["w/a.txt", "w/a.txt"] }

/-- A run of the pool of `ossUpload` on the upserts `w/a.txt`, `w/b.txt`, `w/index.json`
with two workers: both are handed over and pass the test of `uploadErr`; the worker on
`w/a.txt` runs line 347, then the worker on `w/b.txt` runs line 347, and only then the
worker on `w/a.txt` tests `err`. -/
def lostFailureSchedule : List PoolStep :=
  [.invoke "w/a.txt", .enter "w/a.txt", .invoke "w/b.txt", .enter "w/b.txt",
   .transfer "w/a.txt", .transfer "w/b.txt", .observe "w/a.txt", .observe "w/b.txt"]

/-- The shared variables when the pool of `lostFailureSchedule` has been waited for. -/
def lostFailurePool : PoolState DemoWorld :=
  (runPoolSteps demoNet "w" "sync" lostFailureSchedule
    { shared := poolInit (freshWorld lostFailureWorld), entered := [], returned := [] }).shared

/-- The run of `ossUpload` from line 333 on with the pool run `lostFailureSchedule`, the
index found among the upserts and `old.txt` to remove in the cloud. -/
def lostFailureRun : TransferResult × World DemoWorld :=
  ossUploadRest demoNet "w" "sync" ["old.txt"] "w/index.json" lostFailurePool

/-! ## Lemmas on the loops of the diff procedures -/

theorem pushVisit_foldl {σ : Type} (ops : Ops σ) (dir : String) (un ex : List String)
    (es : List FileInfo) (acc : List String) :
    es.foldl (pushVisit ops dir un ex) acc
      = acc ++ (es.filter (pushKeeps ops dir un ex)).map (·.path) := by
  induction es generalizing acc with
  | nil => simp
  | cons e es ih =>
    rw [List.foldl_cons, ih]
    by_cases h1 : dir = e.path <;> by_cases h2 : e.isDir = true <;>
      by_cases h3 : e.path ∈ un <;> by_cases h4 : e.path ∈ ex <;>
      by_cases h5 : ops.limit < e.size <;>
      simp [pushVisit, pushKeeps, List.filter_cons, h1, h2, h3, h4, h5]

theorem pushScan_ok {σ : Type} (ops : Ops σ) (dir : String) (s : σ) :
    ∀ (cfl : List (String × CloudIndex)) (rm un : List String),
      (pushScan ops dir s cfl rm un).err = none →
      (pushScan ops dir s cfl rm un).cloudRemoves
          = rm ++ (cfl.filter fun ki => !ops.isExist (ops.join dir ki.1) s).map Prod.fst
        ∧ (∀ p, p ∈ (pushScan ops dir s cfl rm un).unchanged ↔
            p ∈ un ∨ ∃ ki ∈ cfl, ops.join dir ki.1 = p ∧ ops.isExist p s = true ∧
              ops.getEtag p s = .ok ki.2.hash)
        ∧ (∀ ki ∈ cfl, ops.isExist (ops.join dir ki.1) s = true →
            ∃ h, ops.getEtag (ops.join dir ki.1) s = .ok h) := by
  intro cfl
  induction cfl with
  | nil => intro rm un _; simp [pushScan]
  | cons ki rest ih =>
    obtain ⟨k, idx⟩ := ki
    intro rm un herr
    by_cases hex : ops.isExist (ops.join dir k) s = true
    · cases hetag : ops.getEtag (ops.join dir k) s with
      | error e => simp [pushScan, hex, hetag] at herr
      | ok h =>
        by_cases hh : h = idx.hash
        · simp only [pushScan, hex, hetag, hh, Bool.not_true, Bool.false_eq_true, if_false,
            if_true] at herr ⊢
          obtain ⟨h1, h2, h3⟩ := ih rm (ops.join dir k :: un) herr
          refine ⟨?_, ?_, ?_⟩
          · simp [h1, List.filter_cons, hex]
          · intro p
            rw [h2 p]
            constructor
            · rintro (hp | ⟨ki, hki, hj, he, hg⟩)
              · rcases List.mem_cons.mp hp with hp | hp
                · subst hp
                  exact Or.inr ⟨(k, idx), List.mem_cons_self _ _, rfl, hex, by simp [hetag, hh]⟩
                · exact Or.inl hp
              · exact Or.inr ⟨ki, List.mem_cons_of_mem _ hki, hj, he, hg⟩
            · rintro (hp | ⟨ki, hki, hj, he, hg⟩)
              · exact Or.inl (List.mem_cons_of_mem _ hp)
              · rcases List.mem_cons.mp hki with hki | hki
                · subst hki
                  exact Or.inl (by simp [← hj])
                · exact Or.inr ⟨ki, hki, hj, he, hg⟩
          · intro ki hki hex2
            rcases List.mem_cons.mp hki with hki | hki
            · subst hki; exact ⟨h, hetag⟩
            · exact h3 ki hki hex2
        · simp only [pushScan, hex, hetag, hh, Bool.not_true, Bool.false_eq_true, if_false]
            at herr ⊢
          obtain ⟨h1, h2, h3⟩ := ih rm un herr
          refine ⟨?_, ?_, ?_⟩
          · simp [h1, List.filter_cons, hex]
          · intro p
            rw [h2 p]
            constructor
            · rintro (hp | ⟨ki, hki, hj, he, hg⟩)
              · exact Or.inl hp
              · exact Or.inr ⟨ki, List.mem_cons_of_mem _ hki, hj, he, hg⟩
            · rintro (hp | ⟨ki, hki, hj, he, hg⟩)
              · exact Or.inl hp
              · rcases List.mem_cons.mp hki with hki | hki
                · subst hki
                  simp only at hj hg
                  rw [← hj, hetag] at hg
                  exact absurd (Except.ok.inj hg) hh
                · exact Or.inr ⟨ki, hki, hj, he, hg⟩
          · intro ki hki hex2
            rcases List.mem_cons.mp hki with hki | hki
            · subst hki; exact ⟨h, hetag⟩
            · exact h3 ki hki hex2
    · have hex' : ops.isExist (ops.join dir k) s = false := by simpa using hex
      simp only [pushScan, hex', Bool.not_false, if_true] at herr ⊢
      obtain ⟨h1, h2, h3⟩ := ih (rm ++ [k]) un herr
      refine ⟨?_, ?_, ?_⟩
      · simp [h1, List.filter_cons, hex']
      · intro p
        rw [h2 p]
        constructor
        · rintro (hp | ⟨ki, hki, hj, he, hg⟩)
          · exact Or.inl hp
          · exact Or.inr ⟨ki, List.mem_cons_of_mem _ hki, hj, he, hg⟩
        · rintro (hp | ⟨ki, hki, hj, he, hg⟩)
          · exact Or.inl hp
          · rcases List.mem_cons.mp hki with hki | hki
            · subst hki
              simp only at hj
              rw [← hj, hex'] at he
              exact absurd he (by simp)
            · exact Or.inr ⟨ki, hki, hj, he, hg⟩
      · intro ki hki hex2
        rcases List.mem_cons.mp hki with hki | hki
        · subst hki; simp [hex'] at hex2
        · exact h3 ki hki hex2

theorem mem_map_filter_of_nodup {α β : Type} (f : α → β) (q : α → Bool) (l : List α)
    (hl : (l.map f).Nodup) (a : α) (ha : a ∈ l) :
    f a ∈ (l.filter q).map f ↔ q a = true := by
  constructor
  · intro h
    obtain ⟨b, hb, hfb⟩ := List.mem_map.mp h
    obtain ⟨hbl, hqb⟩ := List.mem_filter.mp hb
    have : b = a := List.inj_on_of_nodup_map hl hbl ha hfb
    rw [← this]; exact hqb
  · intro h
    exact List.mem_map.mpr ⟨a, List.mem_filter.mpr ⟨ha, h⟩, rfl⟩

theorem nodup_map_filter {α β : Type} (f : α → β) (q : α → Bool) (l : List α)
    (hl : (l.map f).Nodup) : ((l.filter q).map f).Nodup :=
  List.Nodup.sublist (List.Sublist.map f (List.filter_sublist l)) hl

theorem push_ok_unfold {σ : Type} (ops : Ops σ) (dir : String)
    (cfl : List (String × CloudIndex)) (s : σ)
    (herr : (cloudUpsertRemoveListOSS ops dir cfl s).1.err = none) :
    (pushScan ops dir s cfl [] []).err = none ∧
    ∃ s1, ops.genCloudIndex dir (pushExcludes ops dir s) s = (none, s1) ∧
      cloudUpsertRemoveListOSS ops dir cfl s =
        ({ localUpserts := ((ops.walk dir s1).filter
              (pushKeeps ops dir (pushUnchanged ops dir cfl s) (pushExcludes ops dir s))).map
              (·.path),
           cloudRemoves := (pushScan ops dir s cfl [] []).cloudRemoves,
           err := none }, s1) := by
  unfold cloudUpsertRemoveListOSS at herr ⊢
  cases hscan : (pushScan ops dir s cfl [] []).err with
  | some e => simp [hscan] at herr
  | none =>
    simp only [hscan] at herr ⊢
    rcases hgen : ops.genCloudIndex dir (pushExcludes ops dir s) s with ⟨ge, s1⟩
    cases ge with
    | some e => simp [hgen] at herr
    | none =>
      refine ⟨trivial, s1, rfl, ?_⟩
      simp [pushVisit_foldl, pushUnchanged]

theorem mem_pushUnchanged {σ : Type} (ops : Ops σ) (dir : String)
    (cfl : List (String × CloudIndex)) (s : σ)
    (hscan : (pushScan ops dir s cfl [] []).err = none) (p : String) :
    p ∈ pushUnchanged ops dir cfl s ↔
      (∃ ki ∈ cfl, ops.join dir ki.1 = p ∧ ops.isExist p s = true ∧
        ops.getEtag p s = .ok ki.2.hash) ∧ p ≠ ops.join dir "index.json" := by
  unfold pushUnchanged
  rw [List.mem_filter, (pushScan_ok ops dir s cfl [] [] hscan).2.1 p]
  simp

theorem lookup_eq_none_iff_not_mem {β : Type} (k : String) (l : List (String × β)) :
    l.lookup k = none ↔ k ∉ l.map Prod.fst := by
  induction l with
  | nil => simp
  | cons kv l ih =>
    obtain ⟨k', v⟩ := kv
    by_cases h : k = k'
    · subst h; simp [List.lookup]
    · have hb : (k == k') = false := by simpa using h
      simp [List.lookup, hb, ih, h]

theorem lookup_of_mem_nodup {β : Type} (l : List (String × β)) (hl : (l.map Prod.fst).Nodup)
    (kv : String × β) (h : kv ∈ l) : l.lookup kv.1 = some kv.2 := by
  induction l with
  | nil => simp at h
  | cons kv' l ih =>
    obtain ⟨k', v'⟩ := kv'
    rw [List.map_cons, List.nodup_cons] at hl
    rcases List.mem_cons.mp h with h | h
    · subst h; simp [List.lookup]
    · have hne : kv.1 ≠ k' := by
        intro hk
        exact hl.1 (List.mem_map.mpr ⟨kv, h, hk⟩)
      have hb : (kv.1 == k') = false := by simpa using hne
      simp [List.lookup, hb, ih hl.2 h]

theorem mem_of_lookup_eq_some {β : Type} (k : String) (v : β) (l : List (String × β))
    (h : l.lookup k = some v) : (k, v) ∈ l := by
  induction l with
  | nil => simp at h
  | cons kv' l ih =>
    obtain ⟨k', v'⟩ := kv'
    by_cases hk : k = k'
    · subst hk
      simp [List.lookup] at h
      simp [h]
    · have hb : (k == k') = false := by simpa using hk
      simp only [List.lookup, hb] at h
      exact List.mem_cons_of_mem _ (ih h)

theorem pullVisit_foldl {σ : Type} (ops : Ops σ) (dir : String)
    (cfl : List (String × CloudIndex)) (s : σ) (es : List FileInfo) (acc : PullWalk) :
    (es.foldl (pullVisit ops dir cfl s) acc).localRemoves
        = acc.localRemoves ++ (es.filter (pullRemoves ops dir cfl)).map (·.path) ∧
      ∀ k, k ∈ (es.foldl (pullVisit ops dir cfl s) acc).unchanged ↔
        k ∈ acc.unchanged ∨ ∃ e ∈ es, e.path ≠ dir ∧ e.isDir = false ∧
          ops.toSlash (trimPrefix e.path dir) = k ∧
          ∃ idx, cfl.lookup k = some idx ∧ ops.getEtag e.path s = .ok idx.hash := by
  induction es generalizing acc with
  | nil => simp
  | cons e es ih =>
    rw [List.foldl_cons]
    obtain ⟨ih1, ih2⟩ := ih (pullVisit ops dir cfl s acc e)
    rw [ih1]
    by_cases h1 : dir = e.path
    · subst h1
      have hv : pullVisit ops e.path cfl s acc e = acc := by simp [pullVisit]
      refine ⟨by simp [hv, pullRemoves, List.filter_cons], fun k => ?_⟩
      rw [ih2 k, hv]
      simp
    by_cases h2 : e.isDir = true
    · have hv : pullVisit ops dir cfl s acc e = acc := by simp [pullVisit, h1, h2]
      refine ⟨by simp [hv, pullRemoves, List.filter_cons, h2], fun k => ?_⟩
      rw [ih2 k, hv]
      simp [h2]
    have h2' : e.isDir = false := by simpa using h2
    have h1' : e.path ≠ dir := fun h => h1 h.symm
    cases hl : cfl.lookup (ops.toSlash (trimPrefix e.path dir)) with
    | none =>
      by_cases h5 : ops.limit < e.size
      · have hv : pullVisit ops dir cfl s acc e = acc := by simp [pullVisit, h1, h2, hl, h5]
        refine ⟨by simp [hv, pullRemoves, List.filter_cons, h5], fun k => ?_⟩
        rw [ih2 k, hv]
        constructor
        · rintro (h | ⟨e', he', h⟩)
          · exact Or.inl h
          · exact Or.inr ⟨e', List.mem_cons_of_mem _ he', h⟩
        · rintro (h | ⟨e', he', hp, hd, hr, idx, hi, hg⟩)
          · exact Or.inl h
          · rcases List.mem_cons.mp he' with he' | he'
            · subst he'; rw [← hr, hl] at hi; simp at hi
            · exact Or.inr ⟨e', he', hp, hd, hr, idx, hi, hg⟩
      · have hv : pullVisit ops dir cfl s acc e
            = { acc with localRemoves := acc.localRemoves ++ [e.path] } := by
          simp [pullVisit, h1, h2, hl, h5]
        refine ⟨by simp [hv, pullRemoves, List.filter_cons, h1, h2, hl, h5], fun k => ?_⟩
        rw [ih2 k, hv]
        constructor
        · rintro (h | ⟨e', he', h⟩)
          · exact Or.inl h
          · exact Or.inr ⟨e', List.mem_cons_of_mem _ he', h⟩
        · rintro (h | ⟨e', he', hp, hd, hr, idx, hi, hg⟩)
          · exact Or.inl h
          · rcases List.mem_cons.mp he' with he' | he'
            · subst he'; rw [← hr, hl] at hi; simp at hi
            · exact Or.inr ⟨e', he', hp, hd, hr, idx, hi, hg⟩
    | some cloudIdx =>
      have hrm : (e :: es).filter (pullRemoves ops dir cfl) = es.filter (pullRemoves ops dir cfl) := by
        simp [pullRemoves, List.filter_cons, hl]
      rw [hrm]
      cases hg : ops.getEtag e.path s with
      | error err =>
        have hv : pullVisit ops dir cfl s acc e = acc := by simp [pullVisit, h1, h2, hl, hg]
        refine ⟨by simp [hv], fun k => ?_⟩
        rw [ih2 k, hv]
        constructor
        · rintro (h | ⟨e', he', h⟩)
          · exact Or.inl h
          · exact Or.inr ⟨e', List.mem_cons_of_mem _ he', h⟩
        · rintro (h | ⟨e', he', hp, hd, hr, idx, hi, hg'⟩)
          · exact Or.inl h
          · rcases List.mem_cons.mp he' with he' | he'
            · subst he'; rw [hg] at hg'; simp at hg'
            · exact Or.inr ⟨e', he', hp, hd, hr, idx, hi, hg'⟩
      | ok localHash =>
        by_cases hh : cloudIdx.hash = localHash
        · have hv : pullVisit ops dir cfl s acc e
              = { acc with unchanged := ops.toSlash (trimPrefix e.path dir) :: acc.unchanged } := by
            simp [pullVisit, h1, h2, hl, hg, hh]
          refine ⟨by simp [hv], fun k => ?_⟩
          rw [ih2 k, hv]
          constructor
          · rintro (h | ⟨e', he', h⟩)
            · rcases List.mem_cons.mp h with h | h
              · refine Or.inr ⟨e, List.mem_cons_self _ _, h1', h2', h.symm, cloudIdx, ?_, ?_⟩
                · rw [h]; exact hl
                · rw [hg, hh]
              · exact Or.inl h
            · exact Or.inr ⟨e', List.mem_cons_of_mem _ he', h⟩
          · rintro (h | ⟨e', he', hp, hd, hr, idx, hi, hg'⟩)
            · exact Or.inl (List.mem_cons_of_mem _ h)
            · rcases List.mem_cons.mp he' with he' | he'
              · subst he'; exact Or.inl (by simp [← hr])
              · exact Or.inr ⟨e', he', hp, hd, hr, idx, hi, hg'⟩
        · have hv : pullVisit ops dir cfl s acc e = acc := by
            simp [pullVisit, h1, h2, hl, hg, hh]
          refine ⟨by simp [hv], fun k => ?_⟩
          rw [ih2 k, hv]
          constructor
          · rintro (h | ⟨e', he', h⟩)
            · exact Or.inl h
            · exact Or.inr ⟨e', List.mem_cons_of_mem _ he', h⟩
          · rintro (h | ⟨e', he', hp, hd, hr, idx, hi, hg'⟩)
            · exact Or.inl h
            · rcases List.mem_cons.mp he' with he' | he'
              · subst he'
                rw [← hr, hl] at hi
                rw [hg] at hg'
                have h1 := Option.some.inj hi
                have h2 := Except.ok.inj hg'
                exact absurd (by rw [h1, h2]) hh
              · exact Or.inr ⟨e', he', hp, hd, hr, idx, hi, hg'⟩

theorem pullFetchStep_foldl {σ : Type} (ops : Ops σ) (un : List String)
    (cfl : List (String × CloudIndex)) (acc : List String) :
    cfl.foldl (pullFetchStep ops un) acc
      = acc ++ (cfl.filter (pullFetches ops un)).map Prod.fst := by
  induction cfl generalizing acc with
  | nil => simp
  | cons ki cfl ih =>
    rw [List.foldl_cons, ih]
    by_cases h1 : ki.1 ∈ un <;> by_cases h2 : ops.limit < ki.2.size <;>
      simp [pullFetchStep, pullFetches, List.filter_cons, h1, h2]

theorem pushScan_err_none {σ : Type} (ops : Ops σ) (dir : String) (s : σ) :
    ∀ (cfl : List (String × CloudIndex)) (rm un : List String),
      (∀ ki ∈ cfl, ops.isExist (ops.join dir ki.1) s = true →
        ∃ h, ops.getEtag (ops.join dir ki.1) s = .ok h) →
      (pushScan ops dir s cfl rm un).err = none := by
  intro cfl
  induction cfl with
  | nil => intro rm un _; rfl
  | cons ki rest ih =>
    obtain ⟨k, idx⟩ := ki
    intro rm un hall
    have hrest : ∀ ki ∈ rest, ops.isExist (ops.join dir ki.1) s = true →
        ∃ h, ops.getEtag (ops.join dir ki.1) s = .ok h :=
      fun ki hki => hall ki (List.mem_cons_of_mem _ hki)
    by_cases hex : ops.isExist (ops.join dir k) s = true
    · obtain ⟨h, hh⟩ := hall (k, idx) (List.mem_cons_self _ _) hex
      by_cases heq : h = idx.hash
      · simp only [pushScan, hex, hh, heq, Bool.not_true, Bool.false_eq_true, if_false, if_true]
        exact ih _ _ hrest
      · simp only [pushScan, hex, hh, heq, Bool.not_true, Bool.false_eq_true, if_false]
        exact ih _ _ hrest
    · have hex' : ops.isExist (ops.join dir k) s = false := by simpa using hex
      simp only [pushScan, hex', Bool.not_false, if_true]
      exact ih _ _ hrest

theorem pushScan_err_some {σ : Type} (ops : Ops σ) (dir : String) (s : σ) :
    ∀ (cfl : List (String × CloudIndex)) (rm un : List String) (err : String),
      (pushScan ops dir s cfl rm un).err = some err →
      ∃ ki ∈ cfl, ops.isExist (ops.join dir ki.1) s = true ∧
        ops.getEtag (ops.join dir ki.1) s = .error err := by
  intro cfl
  induction cfl with
  | nil => intro rm un err h; simp [pushScan] at h
  | cons ki rest ih =>
    obtain ⟨k, idx⟩ := ki
    intro rm un err h
    by_cases hex : ops.isExist (ops.join dir k) s = true
    · cases hg : ops.getEtag (ops.join dir k) s with
      | error e =>
        simp only [pushScan, hex, hg, Bool.not_true, Bool.false_eq_true, if_false,
          Option.some.injEq] at h
        exact ⟨(k, idx), List.mem_cons_self _ _, hex, by rw [hg, h]⟩
      | ok hsh =>
        by_cases heq : hsh = idx.hash
        · simp only [pushScan, hex, hg, heq, Bool.not_true, Bool.false_eq_true, if_false,
            if_true] at h
          obtain ⟨ki, hki, h1, h2⟩ := ih _ _ _ h
          exact ⟨ki, List.mem_cons_of_mem _ hki, h1, h2⟩
        · simp only [pushScan, hex, hg, heq, Bool.not_true, Bool.false_eq_true, if_false] at h
          obtain ⟨ki, hki, h1, h2⟩ := ih _ _ _ h
          exact ⟨ki, List.mem_cons_of_mem _ hki, h1, h2⟩
    · have hex' : ops.isExist (ops.join dir k) s = false := by simpa using hex
      simp only [pushScan, hex', Bool.not_false, if_true] at h
      obtain ⟨ki, hki, h1, h2⟩ := ih _ _ _ h
      exact ⟨ki, List.mem_cons_of_mem _ hki, h1, h2⟩

theorem push_of_scan_err {σ : Type} (ops : Ops σ) (dir : String)
    (cfl : List (String × CloudIndex)) (s : σ) (err : String)
    (h : (pushScan ops dir s cfl [] []).err = some err) :
    cloudUpsertRemoveListOSS ops dir cfl s =
      ({ localUpserts := [], cloudRemoves := (pushScan ops dir s cfl [] []).cloudRemoves,
         err := some err }, s) := by
  unfold cloudUpsertRemoveListOSS
  simp [h]

theorem push_of_gen_ok {σ : Type} (ops : Ops σ) (dir : String)
    (cfl : List (String × CloudIndex)) (s s1 : σ)
    (hscan : (pushScan ops dir s cfl [] []).err = none)
    (hgen : ops.genCloudIndex dir (pushExcludes ops dir s) s = (none, s1)) :
    cloudUpsertRemoveListOSS ops dir cfl s =
      ({ localUpserts := ((ops.walk dir s1).filter
            (pushKeeps ops dir (pushUnchanged ops dir cfl s) (pushExcludes ops dir s))).map
            (·.path),
         cloudRemoves := (pushScan ops dir s cfl [] []).cloudRemoves,
         err := none }, s1) := by
  unfold cloudUpsertRemoveListOSS
  simp [hscan, hgen, pushVisit_foldl, pushUnchanged]

/-! ## The push diff -/

/-- C1: when the push diff `cloudUpsertRemoveListOSS` returns without error, a regular
file `e` of the second walk (a visited entry other than the root that is not a
directory) is in `localUpserts` exactly when it is not marked unchanged (no remote
entry joined to its path carries its local hash, or it is `localDirPath/index.json`),
it is not in the exclusion set and its size does not exceed the limit; `localUpserts`
holds only such files and no path twice.  In the scenario of the specification
`b.txt` is in `localUpserts` and `a.txt` is not. -/
theorem push_localUpserts_characterised {σ : Type} (ops : Ops σ) (dir : String)
    (cfl : List (String × CloudIndex)) (s : σ)
    (herr : (cloudUpsertRemoveListOSS ops dir cfl s).1.err = none)
    (hwalk : ((ops.walk dir (cloudUpsertRemoveListOSS ops dir cfl s).2).map (·.path)).Nodup) :
    (∀ e ∈ ops.walk dir (cloudUpsertRemoveListOSS ops dir cfl s).2,
        e.path ≠ dir → e.isDir = false →
        (e.path ∈ (cloudUpsertRemoveListOSS ops dir cfl s).1.localUpserts ↔
          ((¬ ∃ ki ∈ cfl, ops.join dir ki.1 = e.path ∧ ops.isExist e.path s = true ∧
                ops.getEtag e.path s = .ok ki.2.hash) ∨
              e.path = ops.join dir "index.json") ∧
            e.path ∉ pushExcludes ops dir s ∧ e.size ≤ ops.limit)) ∧
      (∀ p ∈ (cloudUpsertRemoveListOSS ops dir cfl s).1.localUpserts,
        ∃ e ∈ ops.walk dir (cloudUpsertRemoveListOSS ops dir cfl s).2,
          e.path = p ∧ e.path ≠ dir ∧ e.isDir = false) ∧
      (cloudUpsertRemoveListOSS ops dir cfl s).1.localUpserts.Nodup ∧
      ("w/b.txt" ∈ (cloudUpsertRemoveListOSS demoOps "w" scenarioRemote scenarioLocal).1.localUpserts ∧
        "w/a.txt" ∉ (cloudUpsertRemoveListOSS demoOps "w" scenarioRemote scenarioLocal).1.localUpserts) := by
  obtain ⟨hscan, s1, _, hres⟩ := push_ok_unfold ops dir cfl s herr
  rw [hres] at hwalk ⊢
  simp only at hwalk ⊢
  refine ⟨?_, ?_, nodup_map_filter _ _ _ hwalk, by decide⟩
  · intro e he hne hdir
    rw [mem_map_filter_of_nodup (·.path) _ _ hwalk e he]
    have hun := mem_pushUnchanged ops dir cfl s hscan e.path
    have hne' : ¬ dir = e.path := fun h => hne h.symm
    by_cases h3 : e.path ∈ pushUnchanged ops dir cfl s
    · have h3' := hun.mp h3
      simp only [pushKeeps, hne', hdir, h3, decide_True, decide_False, Bool.or_false,
        Bool.not_false, Bool.not_true, Bool.true_and, Bool.false_and, Bool.and_false,
        Bool.false_eq_true, false_iff, not_and, not_le]
      intro h
      rcases h with h | h
      · exact absurd h3'.1 h
      · exact absurd h h3'.2
    · have h3' : ¬ ((∃ ki ∈ cfl, ops.join dir ki.1 = e.path ∧ ops.isExist e.path s = true ∧
          ops.getEtag e.path s = .ok ki.2.hash) ∧ e.path ≠ ops.join dir "index.json") :=
        fun h => h3 (hun.mpr h)
      have h4 : (¬ ∃ ki ∈ cfl, ops.join dir ki.1 = e.path ∧ ops.isExist e.path s = true ∧
          ops.getEtag e.path s = .ok ki.2.hash) ∨ e.path = ops.join dir "index.json" := by
        by_cases hx : e.path = ops.join dir "index.json"
        · exact Or.inr hx
        · exact Or.inl fun h => h3' ⟨h, hx⟩
      simp only [pushKeeps, hne', hdir, h3, decide_True, decide_False, Bool.or_false,
        Bool.not_false, Bool.true_and, Bool.and_eq_true, Bool.not_eq_true', decide_eq_false_iff_not,
        not_lt, h4, true_and]
  · intro p hp
    obtain ⟨e, he, hpe⟩ := List.mem_map.mp hp
    obtain ⟨hel, hk⟩ := List.mem_filter.mp he
    refine ⟨e, hel, hpe, ?_, ?_⟩
    · intro h
      simp [pushKeeps, h] at hk
    · cases hd : e.isDir with
      | false => rfl
      | true => simp [pushKeeps, hd] at hk

/-- Witness for C1: the scenario of the specification satisfies the hypotheses. -/
theorem push_localUpserts_characterised_witness :
    (cloudUpsertRemoveListOSS demoOps "w" scenarioRemote scenarioLocal).1.err = none ∧
    ((demoOps.walk "w" (cloudUpsertRemoveListOSS demoOps "w" scenarioRemote
        scenarioLocal).2).map (·.path)).Nodup ∧
    (cloudUpsertRemoveListOSS demoOps "w" scenarioRemote scenarioLocal).1.localUpserts.Nodup :=
  ⟨by decide, by decide,
    (push_localUpserts_characterised demoOps "w" scenarioRemote scenarioLocal
      (by decide) (by decide)).2.2.1⟩

/-- C2: when the push diff `cloudUpsertRemoveListOSS` returns without error, a key of
the remote index is in `cloudRemoves` exactly when nothing exists locally at
`localDirPath` joined with it; `cloudRemoves` holds only remote index keys, each at most
once.  In the scenario of the specification `cloudRemoves` is exactly `[c.txt]`. -/
theorem push_cloudRemoves_characterised {σ : Type} (ops : Ops σ) (dir : String)
    (cfl : List (String × CloudIndex)) (s : σ)
    (herr : (cloudUpsertRemoveListOSS ops dir cfl s).1.err = none)
    (hkeys : (cfl.map Prod.fst).Nodup) :
    (∀ ki ∈ cfl, (ki.1 ∈ (cloudUpsertRemoveListOSS ops dir cfl s).1.cloudRemoves ↔
        ops.isExist (ops.join dir ki.1) s = false)) ∧
      (∀ k ∈ (cloudUpsertRemoveListOSS ops dir cfl s).1.cloudRemoves, k ∈ cfl.map Prod.fst) ∧
      (cloudUpsertRemoveListOSS ops dir cfl s).1.cloudRemoves.Nodup ∧
      (cloudUpsertRemoveListOSS demoOps "w" scenarioRemote scenarioLocal).1.cloudRemoves
        = ["c.txt"] := by
  obtain ⟨hscan, s1, _, hres⟩ := push_ok_unfold ops dir cfl s herr
  rw [hres]
  simp only
  rw [(pushScan_ok ops dir s cfl [] [] hscan).1, List.nil_append]
  refine ⟨?_, ?_, nodup_map_filter _ _ _ hkeys, by decide⟩
  · intro ki hki
    rw [mem_map_filter_of_nodup Prod.fst _ _ hkeys ki hki]
    simp
  · intro k hk
    obtain ⟨ki, hki, hkk⟩ := List.mem_map.mp hk
    exact List.mem_map.mpr ⟨ki, (List.mem_filter.mp hki).1, hkk⟩

/-- Witness for C2: the scenario of the specification satisfies the hypotheses. -/
theorem push_cloudRemoves_characterised_witness :
    (cloudUpsertRemoveListOSS demoOps "w" scenarioRemote scenarioLocal).1.err = none ∧
    (scenarioRemote.map Prod.fst).Nodup ∧
    (cloudUpsertRemoveListOSS demoOps "w" scenarioRemote scenarioLocal).1.cloudRemoves.Nodup :=
  ⟨by decide, by decide,
    (push_cloudRemoves_characterised demoOps "w" scenarioRemote scenarioLocal
      (by decide) (by decide)).2.2.1⟩

/-! ## The pull diff -/

theorem pull_unfold {σ : Type} (ops : Ops σ) (dir : String)
    (cfl : List (String × CloudIndex)) (s : σ) :
    (localUpsertRemoveListOSS ops dir cfl s).localRemoves
        = ((ops.walk dir s).filter (pullRemoves ops dir cfl)).map (·.path) ∧
      (localUpsertRemoveListOSS ops dir cfl s).cloudFetches
        = (cfl.filter (pullFetches ops
            ((ops.walk dir s).foldl (pullVisit ops dir cfl s)
              { localRemoves := [], unchanged := [] }).unchanged)).map Prod.fst := by
  unfold localUpsertRemoveListOSS
  simp [(pullVisit_foldl ops dir cfl s _ _).1, pullFetchStep_foldl]

theorem pullRemoves_iff {σ : Type} (ops : Ops σ) (dir : String)
    (cfl : List (String × CloudIndex)) (e : FileInfo) :
    pullRemoves ops dir cfl e = true ↔
      e.path ≠ dir ∧ e.isDir = false ∧
        ops.toSlash (trimPrefix e.path dir) ∉ cfl.map Prod.fst ∧ ¬ ops.limit < e.size := by
  unfold pullRemoves
  rw [← lookup_eq_none_iff_not_mem]
  simp only [Bool.and_eq_true, Bool.not_eq_true', decide_eq_false_iff_not, Option.isNone_iff_eq_none]
  constructor
  · rintro ⟨⟨⟨h1, h2⟩, h3⟩, h4⟩
    exact ⟨fun h => h1 h.symm, h2, h3, h4⟩
  · rintro ⟨h1, h2, h3, h4⟩
    exact ⟨⟨⟨fun h => h1 h.symm, h2⟩, h3⟩, h4⟩

/-- C3: in the pull diff `localUpsertRemoveListOSS`, a regular file `e` of the walk (a
visited entry other than the root that is not a directory) is in `localRemoves` exactly
when its slash-separated path relative to `localDirPath` is not a key of the remote
index and its size is not strictly greater than the limit; every element of
`localRemoves` is such a file (so no directory and no file present in the remote index)
and no path occurs twice.  Hence a walked file larger than the limit is never in
`localRemoves`. -/
theorem pull_localRemoves_characterised {σ : Type} (ops : Ops σ) (dir : String)
    (cfl : List (String × CloudIndex)) (s : σ)
    (hwalk : ((ops.walk dir s).map (·.path)).Nodup) :
    (∀ e ∈ ops.walk dir s, e.path ≠ dir → e.isDir = false →
        (e.path ∈ (localUpsertRemoveListOSS ops dir cfl s).localRemoves ↔
          ops.toSlash (trimPrefix e.path dir) ∉ cfl.map Prod.fst ∧ ¬ ops.limit < e.size)) ∧
      (∀ p ∈ (localUpsertRemoveListOSS ops dir cfl s).localRemoves,
        ∃ e ∈ ops.walk dir s, e.path = p ∧ e.path ≠ dir ∧ e.isDir = false ∧
          ops.toSlash (trimPrefix e.path dir) ∉ cfl.map Prod.fst ∧ e.size ≤ ops.limit) ∧
      (localUpsertRemoveListOSS ops dir cfl s).localRemoves.Nodup ∧
      (∀ e ∈ ops.walk dir s, ops.limit < e.size →
        e.path ∉ (localUpsertRemoveListOSS ops dir cfl s).localRemoves) := by
  rw [(pull_unfold ops dir cfl s).1]
  refine ⟨?_, ?_, nodup_map_filter _ _ _ hwalk, ?_⟩
  · intro e he hne hdir
    rw [mem_map_filter_of_nodup (·.path) _ _ hwalk e he, pullRemoves_iff]
    exact ⟨fun h => ⟨h.2.2.1, h.2.2.2⟩, fun h => ⟨hne, hdir, h.1, h.2⟩⟩
  · intro p hp
    obtain ⟨e, he, hpe⟩ := List.mem_map.mp hp
    obtain ⟨hel, hk⟩ := List.mem_filter.mp he
    obtain ⟨h1, h2, h3, h4⟩ := (pullRemoves_iff ops dir cfl e).mp hk
    exact ⟨e, hel, hpe, h1, h2, h3, not_lt.mp h4⟩
  · intro e he hbig hmem
    have := (mem_map_filter_of_nodup (·.path) _ _ hwalk e he).mp hmem
    exact ((pullRemoves_iff ops dir cfl e).mp this).2.2.2 hbig

/-- Witness for C3: the walk of the scenario of the specification visits no path twice. -/
theorem pull_localRemoves_characterised_witness :
    ((demoOps.walk "w" scenarioLocal).map (·.path)).Nodup ∧
    (localUpsertRemoveListOSS demoOps "w" scenarioRemotePull scenarioLocal).localRemoves.Nodup :=
  ⟨by decide,
    (pull_localRemoves_characterised demoOps "w" scenarioRemotePull scenarioLocal
      (by decide)).2.2.1⟩

theorem pull_cloudFetches_mem_iff {σ : Type} (ops : Ops σ) (dir : String)
    (cfl : List (String × CloudIndex)) (s : σ)
    (hkeys : (cfl.map Prod.fst).Nodup) (ki : String × CloudIndex) (hki : ki ∈ cfl) :
    ki.1 ∈ (localUpsertRemoveListOSS ops dir cfl s).cloudFetches ↔
      (¬ ∃ e ∈ ops.walk dir s, e.path ≠ dir ∧ e.isDir = false ∧
          ops.toSlash (trimPrefix e.path dir) = ki.1 ∧
          ops.getEtag e.path s = .ok ki.2.hash) ∧
        ¬ ops.limit < ki.2.size := by
  rw [(pull_unfold ops dir cfl s).2, mem_map_filter_of_nodup Prod.fst _ _ hkeys ki hki]
  have hun := (pullVisit_foldl ops dir cfl s (ops.walk dir s)
    { localRemoves := [], unchanged := [] }).2 ki.1
  have hlk := lookup_of_mem_nodup cfl hkeys ki hki
  simp only [pullFetches, Bool.and_eq_true, Bool.not_eq_true', decide_eq_false_iff_not]
  rw [hun]
  constructor
  · rintro ⟨h1, h2⟩
    refine ⟨?_, h2⟩
    rintro ⟨e, he, hp, hd, hr, hg⟩
    exact h1 (Or.inr ⟨e, he, hp, hd, hr, ki.2, hlk, hg⟩)
  · rintro ⟨h1, h2⟩
    refine ⟨?_, h2⟩
    rintro (h | ⟨e, he, hp, hd, hr, idx, hi, hg⟩)
    · simp at h
    · rw [hlk] at hi
      rw [← Option.some.inj hi] at hg
      exact h1 ⟨e, he, hp, hd, hr, hg⟩

/-- C4: in the pull diff `localUpsertRemoveListOSS`, a key of the remote index is in
`cloudFetches` exactly when it is not marked unchanged (no walked regular file has this
key as relative path and a successfully computed hash equal to the hash of the remote
entry; sizes play no part) and the `Size` of the remote entry is not strictly greater
than the limit; `cloudFetches` holds only remote index keys, each at most once. -/
theorem pull_cloudFetches_characterised {σ : Type} (ops : Ops σ) (dir : String)
    (cfl : List (String × CloudIndex)) (s : σ)
    (hkeys : (cfl.map Prod.fst).Nodup) :
    (∀ ki ∈ cfl, (ki.1 ∈ (localUpsertRemoveListOSS ops dir cfl s).cloudFetches ↔
        (¬ ∃ e ∈ ops.walk dir s, e.path ≠ dir ∧ e.isDir = false ∧
            ops.toSlash (trimPrefix e.path dir) = ki.1 ∧
            ops.getEtag e.path s = .ok ki.2.hash) ∧
          ¬ ops.limit < ki.2.size)) ∧
      (∀ k ∈ (localUpsertRemoveListOSS ops dir cfl s).cloudFetches, k ∈ cfl.map Prod.fst) ∧
      (localUpsertRemoveListOSS ops dir cfl s).cloudFetches.Nodup := by
  refine ⟨fun ki hki => pull_cloudFetches_mem_iff ops dir cfl s hkeys ki hki, ?_, ?_⟩
  · rw [(pull_unfold ops dir cfl s).2]
    intro k hk
    obtain ⟨ki, hki, hkk⟩ := List.mem_map.mp hk
    exact List.mem_map.mpr ⟨ki, (List.mem_filter.mp hki).1, hkk⟩
  · rw [(pull_unfold ops dir cfl s).2]
    exact nodup_map_filter _ _ _ hkeys

/-- Witness for C4: the remote index of the scenario has distinct keys. -/
theorem pull_cloudFetches_characterised_witness :
    (scenarioRemotePull.map Prod.fst).Nodup ∧
    (localUpsertRemoveListOSS demoOps "w" scenarioRemotePull scenarioLocal).cloudFetches.Nodup :=
  ⟨by decide,
    (pull_cloudFetches_characterised demoOps "w" scenarioRemotePull scenarioLocal
      (by decide)).2.2⟩

/-! ## Idempotence of the push diff, size limit on the remote side, hash failures -/

/-- C5, as stated, fails: in `syncedLocal` every remote entry has a local file, every
local file has its current hash recorded in `syncedRemote`, index generation changes
nothing in the tree, and still the push diff returns `localUpserts = [w/index.json]`,
because the unchanged mark of the index file is deleted. -/
theorem push_idempotence_counterexample :
    (∀ ki ∈ syncedRemote, demoOps.isExist (demoOps.join "w" ki.1) syncedLocal = true) ∧
    (∀ e ∈ demoOps.walk "w" syncedLocal, e.isDir = false →
      e.path ∉ pushExcludes demoOps "w" syncedLocal → e.size ≤ demoOps.limit →
      ∃ ki ∈ syncedRemote, demoOps.join "w" ki.1 = e.path ∧
        demoOps.getEtag e.path syncedLocal = .ok ki.2.hash) ∧
    demoOps.walk "w" (cloudUpsertRemoveListOSS demoOps "w" syncedRemote syncedLocal).2
      = demoOps.walk "w" syncedLocal ∧
    (cloudUpsertRemoveListOSS demoOps "w" syncedRemote syncedLocal).1
      = { localUpserts := ["w/index.json"], cloudRemoves := [], err := none } ∧
    ¬ ((cloudUpsertRemoveListOSS demoOps "w" syncedRemote syncedLocal).1.localUpserts = [] ∧
       (cloudUpsertRemoveListOSS demoOps "w" syncedRemote syncedLocal).1.cloudRemoves = []) := by
  decide

/-- C5, amended: if every remote index entry has a local file whose hash can be computed,
index generation succeeds, and the remote index records the current hash of every
walked, non-excluded, non-oversized regular file other than `localDirPath/index.json`,
then `cloudUpsertRemoveListOSS` returns without error, `cloudRemoves` is empty and
`localUpserts` holds no path other than `localDirPath/index.json`; the index file itself
is in `localUpserts` whenever it is walked, not excluded and not oversized. -/
theorem push_idempotent_up_to_index {σ : Type} (ops : Ops σ) (dir : String)
    (cfl : List (String × CloudIndex)) (s s1 : σ)
    (hexists : ∀ ki ∈ cfl, ops.isExist (ops.join dir ki.1) s = true)
    (hhash : ∀ ki ∈ cfl, ∃ h, ops.getEtag (ops.join dir ki.1) s = .ok h)
    (hgen : ops.genCloudIndex dir (pushExcludes ops dir s) s = (none, s1))
    (hrec : ∀ e ∈ ops.walk dir s1, e.path ≠ dir → e.isDir = false →
      e.path ∉ pushExcludes ops dir s → e.size ≤ ops.limit →
      e.path ≠ ops.join dir "index.json" →
      ∃ ki ∈ cfl, ops.join dir ki.1 = e.path ∧ ops.getEtag e.path s = .ok ki.2.hash) :
    (cloudUpsertRemoveListOSS ops dir cfl s).1.err = none ∧
      (cloudUpsertRemoveListOSS ops dir cfl s).1.cloudRemoves = [] ∧
      (∀ p ∈ (cloudUpsertRemoveListOSS ops dir cfl s).1.localUpserts,
        p = ops.join dir "index.json") ∧
      (∀ e ∈ ops.walk dir s1, e.path = ops.join dir "index.json" → e.path ≠ dir →
        e.isDir = false → e.path ∉ pushExcludes ops dir s → e.size ≤ ops.limit →
        e.path ∈ (cloudUpsertRemoveListOSS ops dir cfl s).1.localUpserts) := by
  have hscan : (pushScan ops dir s cfl [] []).err = none :=
    pushScan_err_none ops dir s cfl [] [] fun ki hki _ => hhash ki hki
  rw [push_of_gen_ok ops dir cfl s s1 hscan hgen]
  simp only
  refine ⟨trivial, ?_, ?_, ?_⟩
  · rw [(pushScan_ok ops dir s cfl [] [] hscan).1, List.nil_append, List.map_eq_nil_iff,
      List.filter_eq_nil_iff]
    intro ki hki
    simp [hexists ki hki]
  · intro p hp
    obtain ⟨e, he, hpe⟩ := List.mem_map.mp hp
    obtain ⟨hel, hk⟩ := List.mem_filter.mp he
    by_contra hne
    simp only [pushKeeps, Bool.and_eq_true, Bool.not_eq_true', Bool.or_eq_false_iff,
      decide_eq_false_iff_not, not_lt] at hk
    obtain ⟨⟨⟨⟨h1, h2⟩, h3⟩, h4⟩, h5⟩ := hk
    have hpe' : e.path = p := hpe
    obtain ⟨ki, hki, hj, hg⟩ := hrec e hel (fun h => h1 h.symm) h2 h4 h5 (by rw [hpe']; exact hne)
    apply h3
    rw [mem_pushUnchanged ops dir cfl s hscan]
    refine ⟨⟨ki, hki, hj, ?_, hg⟩, by rw [hpe']; exact hne⟩
    rw [← hj]; exact hexists ki hki
  · intro e he hidx hne hdir hex hsz
    refine List.mem_map.mpr ⟨e, List.mem_filter.mpr ⟨he, ?_⟩, rfl⟩
    have hun : e.path ∉ pushUnchanged ops dir cfl s := by
      rw [mem_pushUnchanged ops dir cfl s hscan]
      exact fun h => h.2 hidx
    have hne' : ¬ dir = e.path := fun h => hne h.symm
    simp [pushKeeps, hne', hdir, hun, hex, hsz]

/-- Witness for C5 (amended): the up-to-date tree `syncedLocal` satisfies the hypotheses. -/
theorem push_idempotent_up_to_index_witness :
    (cloudUpsertRemoveListOSS demoOps "w" syncedRemote syncedLocal).1.err = none ∧
    (cloudUpsertRemoveListOSS demoOps "w" syncedRemote syncedLocal).1.cloudRemoves = [] ∧
    ∀ p ∈ (cloudUpsertRemoveListOSS demoOps "w" syncedRemote syncedLocal).1.localUpserts,
      p = demoOps.join "w" "index.json" :=
  have h := push_idempotent_up_to_index demoOps "w" syncedRemote syncedLocal
    (demoGenCloudIndex "w" (pushExcludes demoOps "w" syncedLocal) syncedLocal).2
    (by decide)
    (by
      intro ki hki
      simp only [syncedRemote, List.mem_cons, List.mem_singleton, List.not_mem_nil,
        or_false] at hki
      rcases hki with rfl | rfl
      · exact ⟨"H1", by decide⟩
      · exact ⟨"IDX", by decide⟩)
    rfl (by decide)
  ⟨h.1, h.2.1, h.2.2.1⟩

/-- C6: the code breaks the claim on the push side.  The remote entry `/c.txt` is larger
than the limit and has no local counterpart; the pull diff does not fetch it, and the
push diff, whose loop over the remote index has no size check, returns without error
with `/c.txt` in `cloudRemoves`, so the oversized remote object is scheduled for
deletion. -/
theorem oversized_remote_removed_by_push :
    (("/c.txt", { hash := "H3", size := 104857601 }) : String × CloudIndex) ∈ scenarioRemotePull ∧
    demoOps.limit < (104857601 : Int) ∧
    demoOps.isExist (demoOps.join "w" "/c.txt") scenarioLocal = false ∧
    (∀ e ∈ demoOps.walk "w" scenarioLocal, demoOps.toSlash (trimPrefix e.path "w") ≠ "/c.txt") ∧
    "/c.txt" ∉ (localUpsertRemoveListOSS demoOps "w" scenarioRemotePull scenarioLocal).cloudFetches ∧
    (cloudUpsertRemoveListOSS demoOps "w" scenarioRemotePull scenarioLocal).1.err = none ∧
    "/c.txt" ∈ (cloudUpsertRemoveListOSS demoOps "w" scenarioRemotePull scenarioLocal).1.cloudRemoves := by
  decide

/-- The size limit on the remote side as far as the code implements it: a remote index
entry whose `Size` exceeds the limit is never in `cloudFetches` of the pull diff. -/
theorem oversized_remote_never_fetched {σ : Type} (ops : Ops σ) (dir : String)
    (cfl : List (String × CloudIndex)) (s : σ) (ki : String × CloudIndex)
    (hkeys : (cfl.map Prod.fst).Nodup) (hki : ki ∈ cfl) (hbig : ops.limit < ki.2.size) :
    ki.1 ∉ (localUpsertRemoveListOSS ops dir cfl s).cloudFetches := by
  rw [(pull_unfold ops dir cfl s).2, mem_map_filter_of_nodup Prod.fst _ _ hkeys ki hki]
  simp [pullFetches, hbig]

/-- C7, as stated, fails for the push diff: `a.txt` exists and has a remote entry, its
hash cannot be computed, and `cloudUpsertRemoveListOSS` returns that hash error (and no
upserts), while the pull diff on the same tree returns a nil error. -/
theorem hash_failure_counterexample :
    demoOps.getEtag "w/a.txt" unreadableLocal = .error "permission denied" ∧
    (cloudUpsertRemoveListOSS demoOps "w" unreadableRemote unreadableLocal).1
      = { localUpserts := [], cloudRemoves := [], err := some "permission denied" } ∧
    (localUpsertRemoveListOSS demoOps "w" unreadableRemote unreadableLocal).err = none := by
  decide

/-- C7, amended: in the pull diff `localUpsertRemoveListOSS` a hash failure is not fatal:
the procedure always returns a nil error, and a remote entry whose local files all fail
to hash is only left unmarked, so that it is fetched unless oversized.  In the push diff
`cloudUpsertRemoveListOSS` a hash failure is fatal: if the hash of an existing local
file with a remote entry cannot be computed, the procedure returns the hash error of
such a file, empty `localUpserts`, and does not run the index generation. -/
theorem hash_failure_pull_swallowed_push_fatal {σ : Type} (ops : Ops σ) (dir : String)
    (cfl : List (String × CloudIndex)) (s : σ) (hkeys : (cfl.map Prod.fst).Nodup) :
    (localUpsertRemoveListOSS ops dir cfl s).err = none ∧
      (∀ ki ∈ cfl,
        (∀ e ∈ ops.walk dir s, ops.toSlash (trimPrefix e.path dir) = ki.1 →
          ∃ err, ops.getEtag e.path s = .error err) →
        ¬ ops.limit < ki.2.size →
        ki.1 ∈ (localUpsertRemoveListOSS ops dir cfl s).cloudFetches) ∧
      (∀ ki ∈ cfl, ops.isExist (ops.join dir ki.1) s = true →
        (∃ err, ops.getEtag (ops.join dir ki.1) s = .error err) →
        ∃ err, (cloudUpsertRemoveListOSS ops dir cfl s).1.err = some err ∧
          (∃ kj ∈ cfl, ops.isExist (ops.join dir kj.1) s = true ∧
            ops.getEtag (ops.join dir kj.1) s = .error err) ∧
          (cloudUpsertRemoveListOSS ops dir cfl s).1.localUpserts = [] ∧
          (cloudUpsertRemoveListOSS ops dir cfl s).2 = s) := by
  refine ⟨rfl, ?_, ?_⟩
  · intro ki hki hfail hsz
    rw [pull_cloudFetches_mem_iff ops dir cfl s hkeys ki hki]
    refine ⟨?_, hsz⟩
    rintro ⟨e, he, _, _, hr, hg⟩
    obtain ⟨err, herr⟩ := hfail e he hr
    rw [hg] at herr
    exact absurd herr (by simp)
  · intro ki hki hex ⟨err0, hfail⟩
    cases hscan : (pushScan ops dir s cfl [] []).err with
    | none =>
      obtain ⟨h, hh⟩ := (pushScan_ok ops dir s cfl [] [] hscan).2.2 ki hki hex
      rw [hh] at hfail
      exact absurd hfail (by simp)
    | some err =>
      refine ⟨err, ?_, pushScan_err_some ops dir s cfl [] [] err hscan, ?_, ?_⟩ <;>
        rw [push_of_scan_err ops dir cfl s err hscan]

/-- Witness for C7 (amended): the tree with the unreadable `a.txt`. -/
theorem hash_failure_pull_swallowed_push_fatal_witness :
    (unreadableRemote.map Prod.fst).Nodup ∧
    (localUpsertRemoveListOSS demoOps "w" unreadableRemote unreadableLocal).err = none :=
  ⟨by decide,
    (hash_failure_pull_swallowed_push_fatal demoOps "w" unreadableRemote unreadableLocal
      (by decide)).1⟩

/-! ## Lemmas on the per-file executors -/

theorem putFileToCloud_cases {σ : Type} (net : Net σ) (filePath key upToken : String)
    (w : World σ) :
    (∃ s1, net.putFile upToken key filePath w.ext = (none, s1) ∧
        putFileToCloud net filePath key upToken w
          = (none, { ext := s1, log := w.log ++ [.putFile upToken key filePath] })) ∨
      (∃ e1 s1 r2 s2, net.putFile upToken key filePath w.ext = (some e1, s1) ∧
        net.putFile upToken key filePath (net.sleep 3 s1) = (r2, s2) ∧
        putFileToCloud net filePath key upToken w
          = (r2, { ext := s2, log := w.log ++ [.putFile upToken key filePath, .sleep 3,
              .putFile upToken key filePath] })) := by
  rcases h1 : net.putFile upToken key filePath w.ext with ⟨r1, s1⟩
  cases r1 with
  | none =>
    left
    exact ⟨s1, rfl, by simp [putFileToCloud, h1, World.record]⟩
  | some e1 =>
    right
    rcases h2 : net.putFile upToken key filePath (net.sleep 3 s1) with ⟨r2, s2⟩
    refine ⟨e1, s1, r2, s2, rfl, h2, ?_⟩
    cases r2 <;> simp [putFileToCloud, h1, h2, World.record]

theorem putFileToCloud_log {σ : Type} (net : Net σ) (filePath key upToken : String)
    (w : World σ) :
    ∃ evs, (putFileToCloud net filePath key upToken w).2.log = w.log ++ evs ∧
      invokes evs = [] ∧ statCalls evs = [] := by
  rcases putFileToCloud_cases net filePath key upToken w with
    ⟨s1, _, h⟩ | ⟨e1, s1, r2, s2, _, _, h⟩
  · exact ⟨[.putFile upToken key filePath], by rw [h], rfl, rfl⟩
  · exact ⟨[.putFile upToken key filePath, .sleep 3, .putFile upToken key filePath],
      by rw [h], rfl, rfl⟩

theorem getOssUploadToken_log {σ : Type} (net : Net σ) (filename cloudDirPath : String)
    (length : Int) (w : World σ) :
    (getOssUploadToken net filename cloudDirPath length w).2.log
      = w.log ++ [.postUploadToken cloudDirPath filename length] := by
  unfold getOssUploadToken
  split
  · rfl
  · simp only []
    split
    · split <;> rfl
    · split <;> rfl

theorem ossUpload0_log {σ : Type} (net : Net σ) (localDirPath cloudDirPath localUpsert : String)
    (wroteFiles transferSize : Nat) (w : World σ) :
    ∃ evs, (ossUpload0 net localDirPath cloudDirPath localUpsert wroteFiles transferSize w).world.log
        = w.log ++ Event.stat localUpsert :: evs ∧
      invokes evs = [] ∧ statCalls evs = [] := by
  unfold ossUpload0
  cases hs : net.stat localUpsert w.ext with
  | error e => exact ⟨[], by simp [World.record], rfl, rfl⟩
  | ok size =>
    simp only []
    have hl2 := getOssUploadToken_log net (net.toSlash (trimPrefix localUpsert localDirPath))
      cloudDirPath size (w.record (.stat localUpsert) w.ext)
    rcases htok : getOssUploadToken net (net.toSlash (trimPrefix localUpsert localDirPath))
      cloudDirPath size (w.record (.stat localUpsert) w.ext) with ⟨⟨tok, terr⟩, w2⟩
    rw [htok] at hl2
    simp only [World.record] at hl2
    cases terr with
    | some e =>
      simp only []
      exact ⟨[.postUploadToken cloudDirPath (net.toSlash (trimPrefix localUpsert localDirPath))
        size], by rw [hl2]; simp, rfl, rfl⟩
    | none =>
      simp only []
      obtain ⟨evs, hl3, hi, hst⟩ := putFileToCloud_log net localUpsert
        (net.pathJoin ["siyuan", net.userId, cloudDirPath,
          net.toSlash (trimPrefix localUpsert localDirPath)]) tok w2
      rcases hput : putFileToCloud net localUpsert
        (net.pathJoin ["siyuan", net.userId, cloudDirPath,
          net.toSlash (trimPrefix localUpsert localDirPath)]) tok w2 with ⟨perr, w3⟩
      rw [hput] at hl3
      simp only at hl3
      cases perr with
      | some e =>
        simp only []
        refine ⟨.postUploadToken cloudDirPath (net.toSlash (trimPrefix localUpsert localDirPath))
          size :: evs, by rw [hl3, hl2]; simp, ?_, ?_⟩
        · simpa [invokes] using hi
        · simpa [statCalls] using hst
      | none =>
        simp only []
        refine ⟨.postUploadToken cloudDirPath (net.toSlash (trimPrefix localUpsert localDirPath))
          size :: evs, by rw [hl3, hl2]; simp, ?_, ?_⟩
        · simpa [invokes] using hi
        · simpa [statCalls] using hst

theorem ossUpload0_counters {σ : Type} (net : Net σ)
    (localDirPath cloudDirPath localUpsert : String) (wroteFiles transferSize : Nat)
    (w : World σ) :
    ((ossUpload0 net localDirPath cloudDirPath localUpsert wroteFiles transferSize w).err = none →
        (ossUpload0 net localDirPath cloudDirPath localUpsert wroteFiles transferSize w).files
          = wroteFiles + 1) ∧
      (∀ e, (ossUpload0 net localDirPath cloudDirPath localUpsert wroteFiles transferSize w).err
          = some e →
        (ossUpload0 net localDirPath cloudDirPath localUpsert wroteFiles transferSize w).files
          = wroteFiles ∧
        (ossUpload0 net localDirPath cloudDirPath localUpsert wroteFiles transferSize
          w).transferSize = transferSize) := by
  unfold ossUpload0
  cases hs : net.stat localUpsert w.ext with
  | error e => simp
  | ok size =>
    simp only []
    rcases htok : getOssUploadToken net (net.toSlash (trimPrefix localUpsert localDirPath))
      cloudDirPath size (w.record (.stat localUpsert) w.ext) with ⟨⟨tok, terr⟩, w2⟩
    cases terr with
    | some e => simp
    | none =>
      simp only []
      rcases hput : putFileToCloud net localUpsert
        (net.pathJoin ["siyuan", net.userId, cloudDirPath,
          net.toSlash (trimPrefix localUpsert localDirPath)]) tok w2 with ⟨perr, w3⟩
      cases perr <;> simp

theorem ossDownload0_facts {σ : Type} (net : Net σ) (localDirPath cloudDirPath fetch : String)
    (fetchedFiles transferSize : Nat) (bootORExit : Bool) (w : World σ) (r : Transfer σ)
    (hr : r = ossDownload0 net localDirPath cloudDirPath fetch fetchedFiles transferSize
      bootORExit w) :
    (w.log ++ [Event.postGetFile (net.pathJoin [cloudDirPath, fetch])]) <+: r.world.log ∧
      invokes r.world.log = invokes w.log ∧
      postGetFileCalls r.world.log
        = postGetFileCalls w.log ++ [net.pathJoin [cloudDirPath, fetch]] ∧
      (r.err = none → r.files = fetchedFiles + 1) ∧
      (∀ e, r.err = some e → r.files = fetchedFiles ∧ r.transferSize = transferSize) := by
  subst hr
  unfold ossDownload0
  simp only []
  repeat' split
  all_goals simp [World.record, invokes, postGetFileCalls, List.filterMap_append]

theorem ossDownload0_log {σ : Type} (net : Net σ) (localDirPath cloudDirPath fetch : String)
    (fetchedFiles transferSize : Nat) (bootORExit : Bool) (w : World σ) :
    ∃ evs, (ossDownload0 net localDirPath cloudDirPath fetch fetchedFiles transferSize
          bootORExit w).world.log
        = w.log ++ Event.postGetFile (net.pathJoin [cloudDirPath, fetch]) :: evs ∧
      invokes evs = [] ∧ postGetFileCalls evs = [] := by
  obtain ⟨⟨evs, hp⟩, hi, hg, _, _⟩ := ossDownload0_facts net localDirPath cloudDirPath fetch
    fetchedFiles transferSize bootORExit w _ rfl
  refine ⟨evs, by rw [← hp]; simp, ?_, ?_⟩
  · rw [← hp] at hi
    simpa [invokes, List.filterMap_append] using hi
  · rw [← hp] at hg
    simpa [postGetFileCalls, List.filterMap_append] using hg

/-! ## Lemmas on the worker pools -/

theorem downloadWorker_of_flag {σ : Type} (net : Net σ) (localDirPath cloudDirPath : String)
    (bootOrExit : Bool) (arg e : String) (st : PoolState σ) (h : st.flag = some e) :
    downloadWorker net localDirPath cloudDirPath bootOrExit arg st = st := by
  simp [downloadWorker, h]

theorem downloadWorker_of_ok {σ : Type} (net : Net σ) (localDirPath cloudDirPath : String)
    (bootOrExit : Bool) (arg : String) (st : PoolState σ) (h : st.flag = none)
    (hr : (ossDownload0 net localDirPath cloudDirPath arg st.files st.transferSize bootOrExit
      st.world).err = none) :
    downloadWorker net localDirPath cloudDirPath bootOrExit arg st =
      { world := (ossDownload0 net localDirPath cloudDirPath arg st.files st.transferSize
          bootOrExit st.world).world,
        files := st.files + 1,
        transferSize := (ossDownload0 net localDirPath cloudDirPath arg st.files
          st.transferSize bootOrExit st.world).transferSize,
        err := none, flag := none } := by
  have hf := (ossDownload0_facts net localDirPath cloudDirPath arg st.files st.transferSize
    bootOrExit st.world _ rfl).2.2.2.1 hr
  simp [downloadWorker, h, hr, hf]

theorem downloadWorker_of_err {σ : Type} (net : Net σ) (localDirPath cloudDirPath : String)
    (bootOrExit : Bool) (arg e : String) (st : PoolState σ) (h : st.flag = none)
    (hr : (ossDownload0 net localDirPath cloudDirPath arg st.files st.transferSize bootOrExit
      st.world).err = some e) :
    downloadWorker net localDirPath cloudDirPath bootOrExit arg st =
      { world := (ossDownload0 net localDirPath cloudDirPath arg st.files st.transferSize
          bootOrExit st.world).world,
        files := st.files, transferSize := st.transferSize,
        err := some e, flag := some e } := by
  have hf := (ossDownload0_facts net localDirPath cloudDirPath arg st.files st.transferSize
    bootOrExit st.world _ rfl).2.2.2.2 e hr
  simp [downloadWorker, h, hr, hf.1, hf.2]

theorem downloadDispatch_append {σ : Type} (net : Net σ) (localDirPath cloudDirPath : String)
    (bootOrExit : Bool) (xs ys : List String) (st : PoolState σ) :
    downloadDispatch net localDirPath cloudDirPath bootOrExit (xs ++ ys) st
      = downloadDispatch net localDirPath cloudDirPath bootOrExit ys
          (downloadDispatch net localDirPath cloudDirPath bootOrExit xs st) := by
  induction xs generalizing st with
  | nil => rfl
  | cons x xs ih => simp [downloadDispatch, ih]

theorem downloadDispatch_of_flag {σ : Type} (net : Net σ) (localDirPath cloudDirPath : String)
    (bootOrExit : Bool) (e : String) (xs : List String) (st : PoolState σ)
    (h : st.flag = some e) :
    downloadDispatch net localDirPath cloudDirPath bootOrExit xs st =
      { st with world := { ext := st.world.ext, log := st.world.log ++ xs.map Event.invoke } } := by
  induction xs generalizing st with
  | nil => simp [downloadDispatch]
  | cons x xs ih =>
    have h' : (st.invoked x).flag = some e := h
    rw [downloadDispatch,
      downloadWorker_of_flag net localDirPath cloudDirPath bootOrExit x e (st.invoked x) h',
      ih _ h']
    simp [PoolState.invoked, World.record]

theorem downloadWorker_invokes {σ : Type} (net : Net σ) (localDirPath cloudDirPath : String)
    (bootOrExit : Bool) (x : String) (st : PoolState σ) :
    invokes (downloadWorker net localDirPath cloudDirPath bootOrExit x st).world.log
      = invokes st.world.log := by
  unfold downloadWorker
  split
  · rfl
  · have hf := (ossDownload0_facts net localDirPath cloudDirPath x st.files
      st.transferSize bootOrExit st.world _ rfl).2.1
    simp only []
    split <;> exact hf

theorem downloadDispatch_invokes {σ : Type} (net : Net σ) (localDirPath cloudDirPath : String)
    (bootOrExit : Bool) (xs : List String) (st : PoolState σ) :
    invokes (downloadDispatch net localDirPath cloudDirPath bootOrExit xs st).world.log
      = invokes st.world.log ++ xs := by
  induction xs generalizing st with
  | nil => simp [downloadDispatch]
  | cons x xs ih =>
    rw [downloadDispatch, ih, downloadWorker_invokes]
    simp [PoolState.invoked, World.record, invokes, List.filterMap_append]

theorem downloadDispatch_ok {σ : Type} (net : Net σ) (localDirPath cloudDirPath : String)
    (bootOrExit : Bool) (xs : List String) (st : PoolState σ) (h0 : st.flag = none)
    (h : (downloadDispatch net localDirPath cloudDirPath bootOrExit xs st).flag = none) :
    (downloadDispatch net localDirPath cloudDirPath bootOrExit xs st).files
        = st.files + xs.length ∧
      ((downloadDispatch net localDirPath cloudDirPath bootOrExit xs st).err = st.err ∨
        (downloadDispatch net localDirPath cloudDirPath bootOrExit xs st).err = none) ∧
      postGetFileCalls (downloadDispatch net localDirPath cloudDirPath bootOrExit xs st).world.log
        = postGetFileCalls st.world.log ++ xs.map fun x => net.pathJoin [cloudDirPath, x] := by
  induction xs generalizing st with
  | nil => simp [downloadDispatch]
  | cons x xs ih =>
    rw [downloadDispatch] at h ⊢
    have h0' : (st.invoked x).flag = none := h0
    cases hr : (ossDownload0 net localDirPath cloudDirPath x (st.invoked x).files
      (st.invoked x).transferSize bootOrExit (st.invoked x).world).err with
    | some e =>
      have hw := downloadWorker_of_err net localDirPath cloudDirPath bootOrExit x e
        (st.invoked x) h0' hr
      rw [hw, downloadDispatch_of_flag net localDirPath cloudDirPath bootOrExit e xs _ rfl] at h
      simp at h
    | none =>
      have hw := downloadWorker_of_ok net localDirPath cloudDirPath bootOrExit x
        (st.invoked x) h0' hr
      rw [hw] at h ⊢
      obtain ⟨h1, h2, h3⟩ := ih _ rfl h
      have hg := (ossDownload0_facts net localDirPath cloudDirPath x (st.invoked x).files
        (st.invoked x).transferSize bootOrExit (st.invoked x).world _ rfl).2.2.1
      refine ⟨?_, ?_, ?_⟩
      · rw [h1]
        simp only [PoolState.invoked, List.length_cons]
        omega
      · right
        rcases h2 with h2 | h2 <;> rw [h2]
      · rw [h3]
        simp only at hg ⊢
        rw [hg]
        simp [PoolState.invoked, World.record, postGetFileCalls, List.filterMap_append]

theorem uploadWorker_of_flag {σ : Type} (net : Net σ) (localDirPath cloudDirPath : String)
    (arg e : String) (st : PoolState σ) (h : st.flag = some e) :
    uploadWorker net localDirPath cloudDirPath arg st = st := by
  simp [uploadWorker, h]

theorem uploadWorker_of_ok {σ : Type} (net : Net σ) (localDirPath cloudDirPath : String)
    (arg : String) (st : PoolState σ) (h : st.flag = none)
    (hr : (ossUpload0 net localDirPath cloudDirPath arg st.files st.transferSize
      st.world).err = none) :
    uploadWorker net localDirPath cloudDirPath arg st =
      { world := (ossUpload0 net localDirPath cloudDirPath arg st.files st.transferSize
          st.world).world,
        files := st.files + 1,
        transferSize := (ossUpload0 net localDirPath cloudDirPath arg st.files
          st.transferSize st.world).transferSize,
        err := none, flag := none } := by
  have hf := (ossUpload0_counters net localDirPath cloudDirPath arg st.files st.transferSize
    st.world).1 hr
  simp [uploadWorker, h, hr, hf]

theorem uploadWorker_of_err {σ : Type} (net : Net σ) (localDirPath cloudDirPath : String)
    (arg e : String) (st : PoolState σ) (h : st.flag = none)
    (hr : (ossUpload0 net localDirPath cloudDirPath arg st.files st.transferSize
      st.world).err = some e) :
    uploadWorker net localDirPath cloudDirPath arg st =
      { world := (ossUpload0 net localDirPath cloudDirPath arg st.files st.transferSize
          st.world).world,
        files := st.files, transferSize := st.transferSize,
        err := some e, flag := some e } := by
  have hf := (ossUpload0_counters net localDirPath cloudDirPath arg st.files st.transferSize
    st.world).2 e hr
  simp [uploadWorker, h, hr, hf.1, hf.2]

theorem uploadWorker_invokes {σ : Type} (net : Net σ) (localDirPath cloudDirPath : String)
    (x : String) (st : PoolState σ) :
    invokes (uploadWorker net localDirPath cloudDirPath x st).world.log
      = invokes st.world.log := by
  obtain ⟨evs, hl, hi, _⟩ := ossUpload0_log net localDirPath cloudDirPath x st.files
    st.transferSize st.world
  have hf : invokes (ossUpload0 net localDirPath cloudDirPath x st.files st.transferSize
      st.world).world.log = invokes st.world.log := by
    rw [hl]
    simp only [invokes, List.filterMap_append, List.filterMap_cons] at hi ⊢
    rw [hi]; simp
  unfold uploadWorker
  split
  · rfl
  · simp only []
    split <;> exact hf

theorem uploadDispatch_append {σ : Type} (net : Net σ) (localDirPath cloudDirPath idx : String)
    (xs ys : List String) (index : String) (st : PoolState σ) :
    uploadDispatch net localDirPath cloudDirPath idx (xs ++ ys) index st
      = uploadDispatch net localDirPath cloudDirPath idx ys
          (uploadDispatch net localDirPath cloudDirPath idx xs index st).1
          (uploadDispatch net localDirPath cloudDirPath idx xs index st).2 := by
  induction xs generalizing index st with
  | nil => rfl
  | cons x xs ih =>
    by_cases hx : idx = x
    · subst hx
      simp [uploadDispatch, ih]
    · simp [uploadDispatch, hx, ih]

theorem uploadDispatch_index {σ : Type} (net : Net σ) (localDirPath cloudDirPath idx : String)
    (xs : List String) (index : String) (st : PoolState σ) :
    (uploadDispatch net localDirPath cloudDirPath idx xs index st).1
      = if idx ∈ xs then idx else index := by
  induction xs generalizing index st with
  | nil => simp [uploadDispatch]
  | cons x xs ih =>
    by_cases hx : idx = x
    · subst hx
      simp only [uploadDispatch, if_true, ih, List.mem_cons, true_or]
      split <;> rfl
    · have hx' : ¬ idx = x := hx
      simp only [uploadDispatch, hx, if_false, ih, List.mem_cons, hx', false_or]

theorem uploadDispatch_of_flag {σ : Type} (net : Net σ) (localDirPath cloudDirPath idx : String)
    (e : String) (xs : List String) (index : String) (st : PoolState σ)
    (h : st.flag = some e) :
    (uploadDispatch net localDirPath cloudDirPath idx xs index st).2 =
      { st with world := { ext := st.world.ext,
                           log := st.world.log ++ (xs.filter (· ≠ idx)).map Event.invoke } } := by
  induction xs generalizing index st with
  | nil => simp [uploadDispatch]
  | cons x xs ih =>
    by_cases hx : idx = x
    · subst hx
      simp only [uploadDispatch, if_true, ih _ _ h]
      simp [List.filter_cons]
    · have h' : (st.invoked x).flag = some e := h
      have hx' : x ≠ idx := fun h => hx h.symm
      simp only [uploadDispatch, hx, if_false]
      rw [uploadWorker_of_flag net localDirPath cloudDirPath x e (st.invoked x) h', ih _ _ h']
      simp [PoolState.invoked, World.record, List.filter_cons, hx']

theorem uploadDispatch_invokes {σ : Type} (net : Net σ) (localDirPath cloudDirPath idx : String)
    (xs : List String) (index : String) (st : PoolState σ) :
    invokes (uploadDispatch net localDirPath cloudDirPath idx xs index st).2.world.log
      = invokes st.world.log ++ xs.filter (· ≠ idx) := by
  induction xs generalizing index st with
  | nil => simp [uploadDispatch]
  | cons x xs ih =>
    by_cases hx : idx = x
    · subst hx
      simp only [uploadDispatch, if_true, ih]
      simp [List.filter_cons]
    · have hx' : x ≠ idx := fun h => hx h.symm
      simp only [uploadDispatch, hx, if_false]
      rw [ih, uploadWorker_invokes]
      simp [PoolState.invoked, World.record, invokes, List.filterMap_append, List.filter_cons, hx']

theorem uploadDispatch_ok {σ : Type} (net : Net σ) (localDirPath cloudDirPath idx : String)
    (xs : List String) (index : String) (st : PoolState σ) (h0 : st.flag = none)
    (h : (uploadDispatch net localDirPath cloudDirPath idx xs index st).2.flag = none) :
    (uploadDispatch net localDirPath cloudDirPath idx xs index st).2.files
        = st.files + (xs.filter (· ≠ idx)).length ∧
      statCalls (uploadDispatch net localDirPath cloudDirPath idx xs index st).2.world.log
        = statCalls st.world.log ++ xs.filter (· ≠ idx) := by
  induction xs generalizing index st with
  | nil => simp [uploadDispatch]
  | cons x xs ih =>
    by_cases hx : idx = x
    · subst hx
      simp only [uploadDispatch, if_true] at h ⊢
      obtain ⟨h1, h2⟩ := ih _ _ h0 h
      exact ⟨by rw [h1]; simp [List.filter_cons], by rw [h2]; simp [List.filter_cons]⟩
    · have hx' : x ≠ idx := fun h => hx h.symm
      simp only [uploadDispatch, hx, if_false] at h ⊢
      have h0' : (st.invoked x).flag = none := h0
      cases hr : (ossUpload0 net localDirPath cloudDirPath x (st.invoked x).files
        (st.invoked x).transferSize (st.invoked x).world).err with
      | some e =>
        have hw := uploadWorker_of_err net localDirPath cloudDirPath x e (st.invoked x) h0' hr
        rw [hw, uploadDispatch_of_flag net localDirPath cloudDirPath idx e xs _ _ rfl] at h
        simp at h
      | none =>
        have hw := uploadWorker_of_ok net localDirPath cloudDirPath x (st.invoked x) h0' hr
        rw [hw] at h ⊢
        obtain ⟨h1, h2⟩ := ih _ _ rfl h
        obtain ⟨evs, hl, _, hst⟩ := ossUpload0_log net localDirPath cloudDirPath x
          (st.invoked x).files (st.invoked x).transferSize (st.invoked x).world
        refine ⟨?_, ?_⟩
        · rw [h1]
          simp only [PoolState.invoked, List.filter_cons, hx', ne_eq, not_false_eq_true,
            decide_True, if_true, List.length_cons]
          omega
        · rw [h2]
          simp only []
          rw [hl]
          simp only [statCalls, List.filterMap_append, List.filterMap_cons] at hst ⊢
          rw [hst]
          simp [PoolState.invoked, World.record, List.filterMap_append, List.filter_cons, hx']

theorem uploadDispatch_files_le {σ : Type} (net : Net σ) (localDirPath cloudDirPath idx : String)
    (xs : List String) (index : String) (st : PoolState σ) :
    (∀ e, st.flag = some e →
        (uploadDispatch net localDirPath cloudDirPath idx xs index st).2.files = st.files) ∧
      (st.flag = none → ∀ e,
        (uploadDispatch net localDirPath cloudDirPath idx xs index st).2.flag = some e →
        (uploadDispatch net localDirPath cloudDirPath idx xs index st).2.files
          < st.files + (xs.filter (· ≠ idx)).length) := by
  refine ⟨fun e he => by rw [uploadDispatch_of_flag net localDirPath cloudDirPath idx e xs
    index st he], ?_⟩
  induction xs generalizing index st with
  | nil =>
    intro h0 e h
    simp [uploadDispatch, h0] at h
  | cons x xs ih =>
    intro h0 e h
    by_cases hx : idx = x
    · subst hx
      simp only [uploadDispatch, if_true] at h ⊢
      have := ih _ _ h0 e h
      simpa [List.filter_cons] using this
    · have hx' : x ≠ idx := fun h => hx h.symm
      simp only [uploadDispatch, hx, if_false] at h ⊢
      have h0' : (st.invoked x).flag = none := h0
      cases hr : (ossUpload0 net localDirPath cloudDirPath x (st.invoked x).files
        (st.invoked x).transferSize (st.invoked x).world).err with
      | some e' =>
        have hw := uploadWorker_of_err net localDirPath cloudDirPath x e' (st.invoked x) h0' hr
        rw [hw, uploadDispatch_of_flag net localDirPath cloudDirPath idx e' xs _ _ rfl]
        simp only [PoolState.invoked, List.filter_cons, hx', ne_eq, not_false_eq_true,
          decide_True, if_true, List.length_cons]
        omega
      | none =>
        have hw := uploadWorker_of_ok net localDirPath cloudDirPath x (st.invoked x) h0' hr
        rw [hw] at h ⊢
        have := ih _ _ rfl e h
        simp only [PoolState.invoked, List.filter_cons, hx', ne_eq, not_false_eq_true,
          decide_True, if_true, List.length_cons] at this ⊢
        omega

theorem mem_invokes (a : String) (l : List Event) : Event.invoke a ∈ l ↔ a ∈ invokes l := by
  induction l with
  | nil => simp [invokes]
  | cons e l ih =>
    cases e <;> simp_all [invokes, List.filterMap_cons]

theorem invokes_append (l₁ l₂ : List Event) : invokes (l₁ ++ l₂) = invokes l₁ ++ invokes l₂ := by
  simp [invokes, List.filterMap_append]

theorem uploadWorker_log_extends {σ : Type} (net : Net σ) (localDirPath cloudDirPath : String)
    (x : String) (st : PoolState σ) :
    st.world.log <+: (uploadWorker net localDirPath cloudDirPath x st).world.log := by
  obtain ⟨evs, hl, _, _⟩ := ossUpload0_log net localDirPath cloudDirPath x st.files
    st.transferSize st.world
  unfold uploadWorker
  split
  · exact List.prefix_rfl
  · simp only []
    split <;> exact ⟨_, hl.symm⟩

theorem uploadDispatch_log_extends {σ : Type} (net : Net σ) (localDirPath cloudDirPath idx : String)
    (xs : List String) (index : String) (st : PoolState σ) :
    st.world.log <+: (uploadDispatch net localDirPath cloudDirPath idx xs index st).2.world.log := by
  induction xs generalizing index st with
  | nil => exact List.prefix_rfl
  | cons x xs ih =>
    by_cases hx : idx = x
    · subst hx
      simp only [uploadDispatch, if_true]
      exact ih _ _
    · simp only [uploadDispatch, hx, if_false]
      refine List.IsPrefix.trans ?_ (ih _ _)
      refine List.IsPrefix.trans ?_ (uploadWorker_log_extends net localDirPath cloudDirPath x _)
      exact ⟨[Event.invoke x], rfl⟩

theorem ossRemove0_log {σ : Type} (net : Net σ) (cloudDirPath : String) (removes : List String)
    (w : World σ) :
    ∃ evs, (ossRemove0 net cloudDirPath removes w).2.log = w.log ++ evs ∧ invokes evs = [] := by
  unfold ossRemove0
  split
  · exact ⟨[], by simp, rfl⟩
  · split
    · exact ⟨[.postRemoveFile cloudDirPath removes], rfl, rfl⟩
    · simp only []
      split
      · exact ⟨[.postRemoveFile cloudDirPath removes], rfl, rfl⟩
      · split <;> exact ⟨[.postRemoveFile cloudDirPath removes], rfl, rfl⟩

theorem ossUploadFrom_of_flag {σ : Type} (net : Net σ) (localDirPath cloudDirPath : String)
    (localUpserts cloudRemoves : List String) (w : World σ) (e : String)
    (h : (uploadPool net localDirPath cloudDirPath localUpserts w).2.flag = some e) :
    ossUploadFrom net localDirPath cloudDirPath localUpserts cloudRemoves w =
      ({ files := (uploadPool net localDirPath cloudDirPath localUpserts w).2.files,
         transferSize := (uploadPool net localDirPath cloudDirPath localUpserts w).2.transferSize,
         err := some e },
        (uploadPool net localDirPath cloudDirPath localUpserts w).2.world) := by
  unfold ossUploadFrom
  rcases hp : uploadPool net localDirPath cloudDirPath localUpserts w with ⟨index, st⟩
  rw [hp] at h
  simp only at h ⊢
  rw [h]

theorem ossUploadFrom_of_index_err {σ : Type} (net : Net σ) (localDirPath cloudDirPath : String)
    (localUpserts cloudRemoves : List String) (w : World σ) (e : String)
    (h : (uploadPool net localDirPath cloudDirPath localUpserts w).2.flag = none)
    (hr : (ossUpload0 net localDirPath cloudDirPath
      (uploadPool net localDirPath cloudDirPath localUpserts w).1
      (uploadPool net localDirPath cloudDirPath localUpserts w).2.files
      (uploadPool net localDirPath cloudDirPath localUpserts w).2.transferSize
      (uploadPool net localDirPath cloudDirPath localUpserts w).2.world).err = some e) :
    ossUploadFrom net localDirPath cloudDirPath localUpserts cloudRemoves w =
      ({ files := (uploadPool net localDirPath cloudDirPath localUpserts w).2.files,
         transferSize := (uploadPool net localDirPath cloudDirPath localUpserts w).2.transferSize,
         err := some e },
        (ossUpload0 net localDirPath cloudDirPath
          (uploadPool net localDirPath cloudDirPath localUpserts w).1
          (uploadPool net localDirPath cloudDirPath localUpserts w).2.files
          (uploadPool net localDirPath cloudDirPath localUpserts w).2.transferSize
          (uploadPool net localDirPath cloudDirPath localUpserts w).2.world).world) := by
  have hc := (ossUpload0_counters net localDirPath cloudDirPath
      (uploadPool net localDirPath cloudDirPath localUpserts w).1
      (uploadPool net localDirPath cloudDirPath localUpserts w).2.files
      (uploadPool net localDirPath cloudDirPath localUpserts w).2.transferSize
      (uploadPool net localDirPath cloudDirPath localUpserts w).2.world).2 e hr
  unfold ossUploadFrom
  rcases hp : uploadPool net localDirPath cloudDirPath localUpserts w with ⟨index, st⟩
  rw [hp] at h hr hc
  simp only at h hr hc ⊢
  rw [h]
  simp only []
  rw [hr]
  simp only []
  rw [hc.1, hc.2]

theorem ossUploadFrom_of_index_ok {σ : Type} (net : Net σ) (localDirPath cloudDirPath : String)
    (localUpserts cloudRemoves : List String) (w : World σ)
    (h : (uploadPool net localDirPath cloudDirPath localUpserts w).2.flag = none)
    (hr : (ossUpload0 net localDirPath cloudDirPath
      (uploadPool net localDirPath cloudDirPath localUpserts w).1
      (uploadPool net localDirPath cloudDirPath localUpserts w).2.files
      (uploadPool net localDirPath cloudDirPath localUpserts w).2.transferSize
      (uploadPool net localDirPath cloudDirPath localUpserts w).2.world).err = none) :
    ossUploadFrom net localDirPath cloudDirPath localUpserts cloudRemoves w =
      ({ files := (uploadPool net localDirPath cloudDirPath localUpserts w).2.files + 1,
         transferSize := (ossUpload0 net localDirPath cloudDirPath
          (uploadPool net localDirPath cloudDirPath localUpserts w).1
          (uploadPool net localDirPath cloudDirPath localUpserts w).2.files
          (uploadPool net localDirPath cloudDirPath localUpserts w).2.transferSize
          (uploadPool net localDirPath cloudDirPath localUpserts w).2.world).transferSize,
         err := (ossRemove0 net cloudDirPath cloudRemoves
          (ossUpload0 net localDirPath cloudDirPath
            (uploadPool net localDirPath cloudDirPath localUpserts w).1
            (uploadPool net localDirPath cloudDirPath localUpserts w).2.files
            (uploadPool net localDirPath cloudDirPath localUpserts w).2.transferSize
            (uploadPool net localDirPath cloudDirPath localUpserts w).2.world).world).1 },
        (ossRemove0 net cloudDirPath cloudRemoves
          (ossUpload0 net localDirPath cloudDirPath
            (uploadPool net localDirPath cloudDirPath localUpserts w).1
            (uploadPool net localDirPath cloudDirPath localUpserts w).2.files
            (uploadPool net localDirPath cloudDirPath localUpserts w).2.transferSize
            (uploadPool net localDirPath cloudDirPath localUpserts w).2.world).world).2) := by
  have hc := (ossUpload0_counters net localDirPath cloudDirPath
      (uploadPool net localDirPath cloudDirPath localUpserts w).1
      (uploadPool net localDirPath cloudDirPath localUpserts w).2.files
      (uploadPool net localDirPath cloudDirPath localUpserts w).2.transferSize
      (uploadPool net localDirPath cloudDirPath localUpserts w).2.world).1 hr
  unfold ossUploadFrom
  rcases hp : uploadPool net localDirPath cloudDirPath localUpserts w with ⟨index, st⟩
  rw [hp] at h hr hc
  simp only at h hr hc ⊢
  rw [h]
  simp only []
  rw [hr]
  simp only []
  rw [hc]

theorem statCalls_append (l₁ l₂ : List Event) :
    statCalls (l₁ ++ l₂) = statCalls l₁ ++ statCalls l₂ := by
  simp [statCalls, List.filterMap_append]

theorem uploadWorker_statCalls {σ : Type} (net : Net σ) (localDirPath cloudDirPath : String)
    (x : String) (st : PoolState σ) :
    ∃ zs, statCalls (uploadWorker net localDirPath cloudDirPath x st).world.log
        = statCalls st.world.log ++ zs ∧ ∀ y ∈ zs, y = x := by
  obtain ⟨evs, hl, _, hst⟩ := ossUpload0_log net localDirPath cloudDirPath x st.files
    st.transferSize st.world
  have hf : statCalls (ossUpload0 net localDirPath cloudDirPath x st.files st.transferSize
      st.world).world.log = statCalls st.world.log ++ [x] := by
    rw [hl, statCalls_append]
    simp only [statCalls, List.filterMap_cons] at hst ⊢
    rw [hst]
  unfold uploadWorker
  split
  · exact ⟨[], by simp, by simp⟩
  · simp only []
    split <;> exact ⟨[x], hf, by simp⟩

theorem uploadDispatch_statCalls {σ : Type} (net : Net σ) (localDirPath cloudDirPath idx : String)
    (xs : List String) (index : String) (st : PoolState σ) :
    ∃ zs, statCalls (uploadDispatch net localDirPath cloudDirPath idx xs index st).2.world.log
        = statCalls st.world.log ++ zs ∧ ∀ y ∈ zs, y ∈ xs ∧ y ≠ idx := by
  induction xs generalizing index st with
  | nil => exact ⟨[], by simp [uploadDispatch], by simp⟩
  | cons x xs ih =>
    by_cases hx : idx = x
    · subst hx
      simp only [uploadDispatch, if_true]
      obtain ⟨zs, h1, h2⟩ := ih idx st
      exact ⟨zs, h1, fun y hy => ⟨List.mem_cons_of_mem _ (h2 y hy).1, (h2 y hy).2⟩⟩
    · simp only [uploadDispatch, hx, if_false]
      obtain ⟨zs, h1, h2⟩ := ih index
        (uploadWorker net localDirPath cloudDirPath x (st.invoked x))
      obtain ⟨ys, h3, h4⟩ := uploadWorker_statCalls net localDirPath cloudDirPath x
        (st.invoked x)
      refine ⟨ys ++ zs, ?_, ?_⟩
      · rw [h1, h3]
        simp [PoolState.invoked, World.record, statCalls, List.filterMap_append]
      · intro y hy
        rcases List.mem_append.mp hy with hy | hy
        · rw [h4 y hy]
          exact ⟨List.mem_cons_self _ _, fun h => hx h.symm⟩
        · exact ⟨List.mem_cons_of_mem _ (h2 y hy).1, (h2 y hy).2⟩

/-! ## Upload retry -/

/-- C9: `putFileToCloud` calls `PutFile` once when the first attempt succeeds and then
returns nil; when the first attempt fails it sleeps 3 seconds and calls `PutFile` exactly
once more with the same token, key and file path, and returns the outcome of that second
attempt (nil if it succeeds, its error otherwise).  So the result is nil exactly when the
first or the second attempt succeeds, and `PutFile` is never called more than twice. -/
theorem putFileToCloud_retries_once {σ : Type} (net : Net σ) (filePath key upToken : String)
    (w : World σ) :
    (∀ s1, net.putFile upToken key filePath w.ext = (none, s1) →
        putFileToCloud net filePath key upToken w
          = (none, { ext := s1, log := w.log ++ [.putFile upToken key filePath] })) ∧
      (∀ e1 s1 r2 s2, net.putFile upToken key filePath w.ext = (some e1, s1) →
        net.putFile upToken key filePath (net.sleep 3 s1) = (r2, s2) →
        putFileToCloud net filePath key upToken w
          = (r2, { ext := s2, log := w.log ++ [.putFile upToken key filePath, .sleep 3,
              .putFile upToken key filePath] })) ∧
      ((putFileToCloud net filePath key upToken w).1 = none ↔
        (net.putFile upToken key filePath w.ext).1 = none ∨
          (net.putFile upToken key filePath
            (net.sleep 3 (net.putFile upToken key filePath w.ext).2)).1 = none) ∧
      (putFileCount (putFileToCloud net filePath key upToken w).2.log
          = putFileCount w.log + 1 ∨
        putFileCount (putFileToCloud net filePath key upToken w).2.log
          = putFileCount w.log + 2) := by
  rcases putFileToCloud_cases net filePath key upToken w with
    ⟨s1, h1, h⟩ | ⟨e1, s1, r2, s2, h1, h2, h⟩
  · refine ⟨fun s1' h1' => ?_, fun e1 s1' r2 s2 h1' _ => ?_, ?_, ?_⟩
    · rw [h1] at h1'
      rw [h, ← (Prod.mk.inj h1').2]
    · rw [h1] at h1'
      exact absurd (Prod.mk.inj h1').1 (by simp)
    · rw [h, h1]; simp
    · left
      rw [h]
      simp [putFileCount, List.filter_append]
  · refine ⟨fun s1' h1' => ?_, fun e1' s1' r2' s2' h1' h2' => ?_, ?_, ?_⟩
    · rw [h1] at h1'
      exact absurd (Prod.mk.inj h1').1 (by simp)
    · rw [h1] at h1'
      have hs : s1 = s1' := (Prod.mk.inj h1').2
      subst hs
      rw [h2] at h2'
      rw [h, (Prod.mk.inj h2').1, (Prod.mk.inj h2').2]
    · rw [h, h1]
      simp [h2]
    · right
      rw [h]
      simp [putFileCount, List.filter_append]

/-- Witness for C9: in the concrete world the first `PutFile` of `w/b.txt` fails and the
retry succeeds. -/
theorem putFileToCloud_retries_once_witness :
    (putFileToCloud demoNet "w/b.txt" "siyuan/u1/sync/b.txt" "tok"
        (freshWorld { uploadLocal with putFailures := ["w/b.txt"] })).2.log
      = [.putFile "tok" "siyuan/u1/sync/b.txt" "w/b.txt", .sleep 3,
          .putFile "tok" "siyuan/u1/sync/b.txt" "w/b.txt"] ∧
    (putFileToCloud demoNet "w/b.txt" "siyuan/u1/sync/b.txt" "tok"
        (freshWorld { uploadLocal with putFailures := ["w/b.txt"] })).1 = none :=
  have h := (putFileToCloud_retries_once demoNet "w/b.txt" "siyuan/u1/sync/b.txt" "tok"
    (freshWorld { uploadLocal with putFailures := ["w/b.txt"] })).2.1
      "put failed" { uploadLocal with putFailures := [] } none { uploadLocal with putFailures := [] }
      rfl rfl
  ⟨by rw [h]; rfl, by rw [h]⟩

/-! ## Index-last ordering -/

/-- Index-last ordering in the sequential schedule of the pool (`uploadDispatch`): the log
of a run splits into the calls made until the pool has been waited for (`pool`) and the
calls made afterwards (`tail`).  The items handed to the pool are the upserts other than
`localDirPath/index.json`, in order, all of them inside `pool`; the index path is never
handed to the pool and `ossUpload0` is not started on it inside `pool`.  If the error
flag is set (in this schedule exactly when fewer files were written than items handed
over), nothing is called afterwards and `ossUpload` returns that error; otherwise the
first call of `tail` is the `os.Stat` that starts `ossUpload0` on the `index` variable. -/
theorem index_uploaded_last {σ : Type} (net : Net σ) (localDirPath cloudDirPath : String)
    (localUpserts cloudRemoves : List String) (w : World σ) :
    ∃ pool tail,
      (uploadPool net localDirPath cloudDirPath localUpserts w).2.world.log = w.log ++ pool ∧
      (ossUploadFrom net localDirPath cloudDirPath localUpserts cloudRemoves w).2.log
        = w.log ++ pool ++ tail ∧
      invokes pool = localUpserts.filter (· ≠ net.join localDirPath "index.json") ∧
      invokes tail = [] ∧
      Event.invoke (net.join localDirPath "index.json") ∉ pool ++ tail ∧
      Event.stat (net.join localDirPath "index.json") ∉ pool ∧
      (uploadPool net localDirPath cloudDirPath localUpserts w).1
        = (if net.join localDirPath "index.json" ∈ localUpserts
            then net.join localDirPath "index.json" else "") ∧
      ((uploadPool net localDirPath cloudDirPath localUpserts w).2.flag = none ↔
        (uploadPool net localDirPath cloudDirPath localUpserts w).2.files
          = (localUpserts.filter (· ≠ net.join localDirPath "index.json")).length) ∧
      (∀ e, (uploadPool net localDirPath cloudDirPath localUpserts w).2.flag = some e →
        tail = [] ∧
        (ossUploadFrom net localDirPath cloudDirPath localUpserts cloudRemoves w).1.err
          = some e) ∧
      ((uploadPool net localDirPath cloudDirPath localUpserts w).2.flag = none →
        ∃ rest, tail = Event.stat (uploadPool net localDirPath cloudDirPath localUpserts w).1
          :: rest) := by
  obtain ⟨pool, hpool⟩ := uploadDispatch_log_extends net localDirPath cloudDirPath
    (net.join localDirPath "index.json") localUpserts "" (poolInit w)
  have hpool' : (uploadPool net localDirPath cloudDirPath localUpserts w).2.world.log
      = w.log ++ pool := hpool.symm
  have hinv : invokes pool = localUpserts.filter (· ≠ net.join localDirPath "index.json") := by
    have h := uploadDispatch_invokes net localDirPath cloudDirPath
      (net.join localDirPath "index.json") localUpserts "" (poolInit w)
    rw [← hpool, invokes_append] at h
    exact List.append_cancel_left h
  have hstat : Event.stat (net.join localDirPath "index.json") ∉ pool := by
    intro hmem
    have h1 : net.join localDirPath "index.json" ∈ statCalls pool :=
      List.mem_filterMap.mpr ⟨_, hmem, rfl⟩
    obtain ⟨zs, h2, h3⟩ := uploadDispatch_statCalls net localDirPath cloudDirPath
      (net.join localDirPath "index.json") localUpserts "" (poolInit w)
    rw [← hpool, statCalls_append] at h2
    rw [List.append_cancel_left h2] at h1
    exact (h3 _ h1).2 rfl
  have hidx := uploadDispatch_index net localDirPath cloudDirPath
    (net.join localDirPath "index.json") localUpserts "" (poolInit w)
  have hcount : (uploadPool net localDirPath cloudDirPath localUpserts w).2.flag = none ↔
      (uploadPool net localDirPath cloudDirPath localUpserts w).2.files
        = (localUpserts.filter (· ≠ net.join localDirPath "index.json")).length := by
    constructor
    · intro h
      have := (uploadDispatch_ok net localDirPath cloudDirPath
        (net.join localDirPath "index.json") localUpserts "" (poolInit w) rfl h).1
      simpa [poolInit] using this
    · intro h
      cases hf : (uploadPool net localDirPath cloudDirPath localUpserts w).2.flag with
      | none => rfl
      | some e =>
        have := (uploadDispatch_files_le net localDirPath cloudDirPath
          (net.join localDirPath "index.json") localUpserts "" (poolInit w)).2 rfl e hf
        simp only [poolInit, Nat.zero_add] at this
        exact absurd h (Nat.ne_of_lt this)
  have hni : ∀ tail, invokes tail = [] →
      Event.invoke (net.join localDirPath "index.json") ∉ pool ++ tail := by
    intro tail ht hmem
    rw [mem_invokes, invokes_append, hinv, ht, List.append_nil] at hmem
    simpa using (List.mem_filter.mp hmem).2
  cases hf : (uploadPool net localDirPath cloudDirPath localUpserts w).2.flag with
  | some e =>
    have hres := ossUploadFrom_of_flag net localDirPath cloudDirPath localUpserts cloudRemoves
      w e hf
    refine ⟨pool, [], hpool', ?_, hinv, rfl, hni [] rfl, hstat, hidx, ?_, ?_, ?_⟩
    · rw [hres]; simp [hpool']
    · rw [← hcount, hf]
    · intro e' he'
      rw [hres]
      exact ⟨rfl, by rw [← he']⟩
    · intro h; simp at h
  | none =>
    obtain ⟨evs, hl, hi, _⟩ := ossUpload0_log net localDirPath cloudDirPath
      (uploadPool net localDirPath cloudDirPath localUpserts w).1
      (uploadPool net localDirPath cloudDirPath localUpserts w).2.files
      (uploadPool net localDirPath cloudDirPath localUpserts w).2.transferSize
      (uploadPool net localDirPath cloudDirPath localUpserts w).2.world
    cases hr : (ossUpload0 net localDirPath cloudDirPath
      (uploadPool net localDirPath cloudDirPath localUpserts w).1
      (uploadPool net localDirPath cloudDirPath localUpserts w).2.files
      (uploadPool net localDirPath cloudDirPath localUpserts w).2.transferSize
      (uploadPool net localDirPath cloudDirPath localUpserts w).2.world).err with
    | some e =>
      have hres := ossUploadFrom_of_index_err net localDirPath cloudDirPath localUpserts
        cloudRemoves w e hf hr
      have hit : invokes (Event.stat (uploadPool net localDirPath cloudDirPath localUpserts w).1
          :: evs) = [] := by
        simpa [invokes, List.filterMap_cons] using hi
      refine ⟨pool, _ :: evs, hpool', ?_, hinv, hit, hni _ hit, hstat, hidx, ?_, ?_, ?_⟩
      · rw [hres]; simp only []; rw [hl, hpool']
      · rw [← hcount, hf]
      · intro e' he'; simp at he'
      · intro _; exact ⟨evs, rfl⟩
    | none =>
      have hres := ossUploadFrom_of_index_ok net localDirPath cloudDirPath localUpserts
        cloudRemoves w hf hr
      obtain ⟨evs2, hl2, hi2⟩ := ossRemove0_log net cloudDirPath cloudRemoves
        (ossUpload0 net localDirPath cloudDirPath
          (uploadPool net localDirPath cloudDirPath localUpserts w).1
          (uploadPool net localDirPath cloudDirPath localUpserts w).2.files
          (uploadPool net localDirPath cloudDirPath localUpserts w).2.transferSize
          (uploadPool net localDirPath cloudDirPath localUpserts w).2.world).world
      have hit : invokes (Event.stat (uploadPool net localDirPath cloudDirPath localUpserts w).1
          :: (evs ++ evs2)) = [] := by
        have : invokes (evs ++ evs2) = [] := by rw [invokes_append, hi, hi2]; rfl
        simpa [invokes, List.filterMap_cons] using this
      refine ⟨pool, _ :: (evs ++ evs2), hpool', ?_, hinv, hit, hni _ hit, hstat, hidx, ?_, ?_, ?_⟩
      · rw [hres]; simp only []; rw [hl2, hl, hpool']; simp
      · rw [← hcount, hf]
      · intro e' he'; simp at he'
      · intro _; exact ⟨evs ++ evs2, rfl⟩

/-! ## Fail-fast -/

theorem ossDownloadFrom_of_flag {σ : Type} (net : Net σ) (localDirPath cloudDirPath : String)
    (bootOrExit : Bool) (cloudFetches : List String) (w : World σ) (e : String)
    (h : (downloadPool net localDirPath cloudDirPath bootOrExit cloudFetches w).flag = some e) :
    ossDownloadFrom net localDirPath cloudDirPath bootOrExit cloudFetches w =
      ({ files := (downloadPool net localDirPath cloudDirPath bootOrExit cloudFetches w).files,
         transferSize :=
          (downloadPool net localDirPath cloudDirPath bootOrExit cloudFetches w).transferSize,
         err := some e },
        (downloadPool net localDirPath cloudDirPath bootOrExit cloudFetches w).world) := by
  unfold ossDownloadFrom
  simp only []
  rw [h]

theorem ossDownloadFrom_of_ok {σ : Type} (net : Net σ) (localDirPath cloudDirPath : String)
    (bootOrExit : Bool) (cloudFetches : List String) (w : World σ)
    (h : (downloadPool net localDirPath cloudDirPath bootOrExit cloudFetches w).flag = none) :
    ossDownloadFrom net localDirPath cloudDirPath bootOrExit cloudFetches w =
      ({ files := cloudFetches.length,
         transferSize :=
          (downloadPool net localDirPath cloudDirPath bootOrExit cloudFetches w).transferSize,
         err := none },
        (downloadPool net localDirPath cloudDirPath bootOrExit cloudFetches w).world) := by
  obtain ⟨h1, h2, _⟩ := downloadDispatch_ok net localDirPath cloudDirPath bootOrExit
    cloudFetches (poolInit w) rfl h
  have h1' : (downloadPool net localDirPath cloudDirPath bootOrExit cloudFetches w).files
      = cloudFetches.length := by simpa [poolInit] using h1
  have h2' : (downloadPool net localDirPath cloudDirPath bootOrExit cloudFetches w).err
      = none := by
    rcases h2 with h2 | h2 <;> simpa [poolInit] using h2
  unfold ossDownloadFrom
  simp only []
  rw [h]
  simp only []
  rw [h1', h2']

theorem ossDownloadFrom_err_none_iff {σ : Type} (net : Net σ)
    (localDirPath cloudDirPath : String) (bootOrExit : Bool) (cloudFetches : List String)
    (w : World σ) :
    (ossDownloadFrom net localDirPath cloudDirPath bootOrExit cloudFetches w).1.err = none ↔
      (downloadPool net localDirPath cloudDirPath bootOrExit cloudFetches w).flag = none := by
  cases h : (downloadPool net localDirPath cloudDirPath bootOrExit cloudFetches w).flag with
  | none => rw [ossDownloadFrom_of_ok net localDirPath cloudDirPath bootOrExit cloudFetches w h]
  | some e =>
    rw [ossDownloadFrom_of_flag net localDirPath cloudDirPath bootOrExit cloudFetches w e h]

/-- C10: fail-fast of the pools of `ossDownload` and `ossUpload`, run sequentially in list
order.  Download: if the items `pre` are all transferred (the flag is nil after them) and
the transfer of the next item `k` fails with `e`, then `ossDownload` returns the error
`e`, the counters are those of the run over `pre` alone (`len(pre)` files and its byte
count), and after the failed attempt on `k` the log only grows by the hand-overs of the
remaining items, none of which calls a collaborator; if the result is nil every fetch
was handed over and requested exactly once, in order, and the file counter is the
number of fetches.  Upload: the same for the items other than the index path. -/
theorem pools_fail_fast {σ : Type} (net : Net σ) (localDirPath cloudDirPath : String)
    (bootOrExit : Bool) :
    (∀ (pre post : List String) (k e : String) (w : World σ),
      (downloadPool net localDirPath cloudDirPath bootOrExit pre w).flag = none →
      (ossDownload0 net localDirPath cloudDirPath k
        (downloadPool net localDirPath cloudDirPath bootOrExit pre w).files
        (downloadPool net localDirPath cloudDirPath bootOrExit pre w).transferSize bootOrExit
        ((downloadPool net localDirPath cloudDirPath bootOrExit pre w).invoked k).world).err
          = some e →
      ossDownloadFrom net localDirPath cloudDirPath bootOrExit (pre ++ k :: post) w =
          ({ files := pre.length,
             transferSize :=
              (downloadPool net localDirPath cloudDirPath bootOrExit pre w).transferSize,
             err := some e },
           { ext := (ossDownload0 net localDirPath cloudDirPath k
                (downloadPool net localDirPath cloudDirPath bootOrExit pre w).files
                (downloadPool net localDirPath cloudDirPath bootOrExit pre w).transferSize
                bootOrExit
                ((downloadPool net localDirPath cloudDirPath bootOrExit pre w).invoked
                  k).world).world.ext,
             log := (ossDownload0 net localDirPath cloudDirPath k
                (downloadPool net localDirPath cloudDirPath bootOrExit pre w).files
                (downloadPool net localDirPath cloudDirPath bootOrExit pre w).transferSize
                bootOrExit
                ((downloadPool net localDirPath cloudDirPath bootOrExit pre w).invoked
                  k).world).world.log ++ post.map Event.invoke }) ∧
        ossDownloadFrom net localDirPath cloudDirPath bootOrExit pre w =
          ({ files := pre.length,
             transferSize :=
              (downloadPool net localDirPath cloudDirPath bootOrExit pre w).transferSize,
             err := none },
           (downloadPool net localDirPath cloudDirPath bootOrExit pre w).world)) ∧
    (∀ (fetches : List String) (w : World σ),
      (ossDownloadFrom net localDirPath cloudDirPath bootOrExit fetches w).1.err = none →
      (ossDownloadFrom net localDirPath cloudDirPath bootOrExit fetches w).1.files
          = fetches.length ∧
        invokes (ossDownloadFrom net localDirPath cloudDirPath bootOrExit fetches w).2.log
          = invokes w.log ++ fetches ∧
        postGetFileCalls
            (ossDownloadFrom net localDirPath cloudDirPath bootOrExit fetches w).2.log
          = postGetFileCalls w.log ++ fetches.map fun x => net.pathJoin [cloudDirPath, x]) ∧
    (∀ (pre post cloudRemoves : List String) (k e : String) (w : World σ),
      k ≠ net.join localDirPath "index.json" →
      (uploadPool net localDirPath cloudDirPath pre w).2.flag = none →
      (ossUpload0 net localDirPath cloudDirPath k
        (uploadPool net localDirPath cloudDirPath pre w).2.files
        (uploadPool net localDirPath cloudDirPath pre w).2.transferSize
        ((uploadPool net localDirPath cloudDirPath pre w).2.invoked k).world).err = some e →
      ossUploadFrom net localDirPath cloudDirPath (pre ++ k :: post) cloudRemoves w =
          ({ files := (pre.filter (· ≠ net.join localDirPath "index.json")).length,
             transferSize := (uploadPool net localDirPath cloudDirPath pre w).2.transferSize,
             err := some e },
           { ext := (ossUpload0 net localDirPath cloudDirPath k
                (uploadPool net localDirPath cloudDirPath pre w).2.files
                (uploadPool net localDirPath cloudDirPath pre w).2.transferSize
                ((uploadPool net localDirPath cloudDirPath pre w).2.invoked k).world).world.ext,
             log := (ossUpload0 net localDirPath cloudDirPath k
                (uploadPool net localDirPath cloudDirPath pre w).2.files
                (uploadPool net localDirPath cloudDirPath pre w).2.transferSize
                ((uploadPool net localDirPath cloudDirPath pre w).2.invoked k).world).world.log ++
              (post.filter (· ≠ net.join localDirPath "index.json")).map Event.invoke })) ∧
    (∀ (upserts : List String) (w : World σ),
      (uploadPool net localDirPath cloudDirPath upserts w).2.flag = none →
      (uploadPool net localDirPath cloudDirPath upserts w).2.files
          = (upserts.filter (· ≠ net.join localDirPath "index.json")).length ∧
        invokes (uploadPool net localDirPath cloudDirPath upserts w).2.world.log
          = invokes w.log ++ upserts.filter (· ≠ net.join localDirPath "index.json") ∧
        statCalls (uploadPool net localDirPath cloudDirPath upserts w).2.world.log
          = statCalls w.log ++ upserts.filter (· ≠ net.join localDirPath "index.json")) := by
  refine ⟨?_, ?_, ?_, ?_⟩
  · intro pre post k e w hpre hk
    have hfiles : (downloadPool net localDirPath cloudDirPath bootOrExit pre w).files
        = pre.length := by
      have := (downloadDispatch_ok net localDirPath cloudDirPath bootOrExit pre (poolInit w)
        rfl hpre).1
      simpa [poolInit] using this
    refine ⟨?_, ossDownloadFrom_of_ok net localDirPath cloudDirPath bootOrExit pre w hpre⟩
    have hpool : downloadPool net localDirPath cloudDirPath bootOrExit (pre ++ k :: post) w
        = downloadDispatch net localDirPath cloudDirPath bootOrExit post
            (downloadWorker net localDirPath cloudDirPath bootOrExit k
              ((downloadPool net localDirPath cloudDirPath bootOrExit pre w).invoked k)) := by
      unfold downloadPool
      rw [downloadDispatch_append]
      rfl
    have hw := downloadWorker_of_err net localDirPath cloudDirPath bootOrExit k e
      ((downloadPool net localDirPath cloudDirPath bootOrExit pre w).invoked k) hpre hk
    rw [hw, downloadDispatch_of_flag net localDirPath cloudDirPath bootOrExit e post _ rfl]
      at hpool
    rw [ossDownloadFrom_of_flag net localDirPath cloudDirPath bootOrExit (pre ++ k :: post) w e
      (by rw [hpool]), hpool]
    simp only [PoolState.invoked]
    rw [hfiles]
  · intro fetches w h
    have hflag := (ossDownloadFrom_err_none_iff net localDirPath cloudDirPath bootOrExit
      fetches w).mp h
    rw [ossDownloadFrom_of_ok net localDirPath cloudDirPath bootOrExit fetches w hflag]
    refine ⟨rfl, ?_, ?_⟩
    · exact downloadDispatch_invokes net localDirPath cloudDirPath bootOrExit fetches
        (poolInit w)
    · exact (downloadDispatch_ok net localDirPath cloudDirPath bootOrExit fetches (poolInit w)
        rfl hflag).2.2
  · intro pre post cloudRemoves k e w hkidx hpre hk
    have hfiles : (uploadPool net localDirPath cloudDirPath pre w).2.files
        = (pre.filter (· ≠ net.join localDirPath "index.json")).length := by
      have := (uploadDispatch_ok net localDirPath cloudDirPath
        (net.join localDirPath "index.json") pre "" (poolInit w) rfl hpre).1
      simpa [poolInit] using this
    have hne : ¬ net.join localDirPath "index.json" = k := fun h => hkidx h.symm
    have hpool : (uploadPool net localDirPath cloudDirPath (pre ++ k :: post) w).2
        = (uploadDispatch net localDirPath cloudDirPath (net.join localDirPath "index.json")
            post (uploadPool net localDirPath cloudDirPath pre w).1
            (uploadWorker net localDirPath cloudDirPath k
              ((uploadPool net localDirPath cloudDirPath pre w).2.invoked k))).2 := by
      unfold uploadPool
      rw [uploadDispatch_append]
      simp only [uploadDispatch, hne, if_false]
    have hw := uploadWorker_of_err net localDirPath cloudDirPath k e
      ((uploadPool net localDirPath cloudDirPath pre w).2.invoked k) hpre hk
    rw [hw, uploadDispatch_of_flag net localDirPath cloudDirPath
      (net.join localDirPath "index.json") e post _ _ rfl] at hpool
    rw [ossUploadFrom_of_flag net localDirPath cloudDirPath (pre ++ k :: post) cloudRemoves w e
      (by rw [hpool]), hpool]
    simp only [PoolState.invoked]
    rw [hfiles]
  · intro upserts w h
    obtain ⟨h1, h2⟩ := uploadDispatch_ok net localDirPath cloudDirPath
      (net.join localDirPath "index.json") upserts "" (poolInit w) rfl h
    refine ⟨by simpa [poolInit] using h1, ?_, h2⟩
    exact uploadDispatch_invokes net localDirPath cloudDirPath
      (net.join localDirPath "index.json") upserts "" (poolInit w)

/-- Witness for C10: of the fetches `/a.txt`, `/b.txt`, `/c.txt` the second is unreachable,
and of the upserts `w/a.txt`, `w/b.txt`, `w/c.txt` the second fails twice. -/
theorem pools_fail_fast_witness :
    (downloadPool demoNet "w" "sync" false ["/a.txt"]
      (freshWorld { uploadLocal with unreachable := ["sync/b.txt"] })).flag = none ∧
    (ossDownloadFrom demoNet "w" "sync" false (["/a.txt"] ++ "/b.txt" :: ["/c.txt"])
      (freshWorld { uploadLocal with unreachable := ["sync/b.txt"] })).1
        = { files := 1, transferSize := 3, err := some "L93: timeout" } ∧
    (ossUploadFrom demoNet "w" "sync" (["w/a.txt"] ++ "w/b.txt" :: ["w/c.txt"]) []
      (freshWorld { uploadLocal with putFailures := ["w/b.txt", "w/b.txt"] })).1
        = { files := 1, transferSize := 10, err := some "L94: put failed" } :=
  have h := pools_fail_fast demoNet "w" "sync" false
  ⟨by decide,
    by rw [(h.1 ["/a.txt"] ["/c.txt"] "/b.txt" "L93: timeout"
        (freshWorld { uploadLocal with unreachable := ["sync/b.txt"] })
        (by decide) (by decide)).1]; decide,
    by rw [h.2.2.1 ["w/a.txt"] ["w/c.txt"] [] "w/b.txt" "L94: put failed"
        (freshWorld { uploadLocal with putFailures := ["w/b.txt", "w/b.txt"] })
        (by decide) (by decide) (by decide)]; decide⟩

/-! ## Remote deletions -/

theorem removeCalls_append (l₁ l₂ : List Event) :
    removeCalls (l₁ ++ l₂) = removeCalls l₁ ++ removeCalls l₂ := by
  simp [removeCalls, List.filterMap_append]

theorem ossUpload0_removeCalls {σ : Type} (net : Net σ)
    (localDirPath cloudDirPath localUpsert : String) (wroteFiles transferSize : Nat)
    (w : World σ) :
    removeCalls (ossUpload0 net localDirPath cloudDirPath localUpsert wroteFiles transferSize
      w).world.log = removeCalls w.log := by
  unfold ossUpload0
  cases hs : net.stat localUpsert w.ext with
  | error e => simp [World.record, removeCalls, List.filterMap_append]
  | ok size =>
    simp only []
    have hl2 := getOssUploadToken_log net (net.toSlash (trimPrefix localUpsert localDirPath))
      cloudDirPath size (w.record (.stat localUpsert) w.ext)
    rcases htok : getOssUploadToken net (net.toSlash (trimPrefix localUpsert localDirPath))
      cloudDirPath size (w.record (.stat localUpsert) w.ext) with ⟨⟨tok, terr⟩, w2⟩
    rw [htok] at hl2
    simp only [World.record] at hl2
    have h2 : removeCalls w2.log = removeCalls w.log := by
      rw [hl2]; simp [removeCalls, List.filterMap_append]
    cases terr with
    | some e => exact h2
    | none =>
      simp only []
      have h3 : removeCalls (putFileToCloud net localUpsert
          (net.pathJoin ["siyuan", net.userId, cloudDirPath,
            net.toSlash (trimPrefix localUpsert localDirPath)]) tok w2).2.log
            = removeCalls w2.log := by
        rcases putFileToCloud_cases net localUpsert
          (net.pathJoin ["siyuan", net.userId, cloudDirPath,
            net.toSlash (trimPrefix localUpsert localDirPath)]) tok w2 with
          ⟨s1, _, h⟩ | ⟨e1, s1, r2, s2, _, _, h⟩ <;>
        · rw [h]; simp [removeCalls, List.filterMap_append]
      rcases hput : putFileToCloud net localUpsert
        (net.pathJoin ["siyuan", net.userId, cloudDirPath,
          net.toSlash (trimPrefix localUpsert localDirPath)]) tok w2 with ⟨perr, w3⟩
      rw [hput] at h3
      cases perr <;> exact h3.trans h2

theorem uploadWorker_removeCalls {σ : Type} (net : Net σ) (localDirPath cloudDirPath : String)
    (x : String) (st : PoolState σ) :
    removeCalls (uploadWorker net localDirPath cloudDirPath x st).world.log
      = removeCalls st.world.log := by
  have hf := ossUpload0_removeCalls net localDirPath cloudDirPath x st.files st.transferSize
    st.world
  unfold uploadWorker
  split
  · rfl
  · simp only []
    split <;> exact hf

theorem uploadDispatch_removeCalls {σ : Type} (net : Net σ)
    (localDirPath cloudDirPath idx : String) (xs : List String) (index : String)
    (st : PoolState σ) :
    removeCalls (uploadDispatch net localDirPath cloudDirPath idx xs index st).2.world.log
      = removeCalls st.world.log := by
  induction xs generalizing index st with
  | nil => rfl
  | cons x xs ih =>
    by_cases hx : idx = x
    · subst hx
      simp only [uploadDispatch, if_true, ih]
    · simp only [uploadDispatch, hx, if_false]
      rw [ih, uploadWorker_removeCalls]
      simp [PoolState.invoked, World.record, removeCalls, List.filterMap_append]

theorem ossRemove0_cases {σ : Type} (net : Net σ) (cloudDirPath : String)
    (removes : List String) (w : World σ) :
    (removes = [] ∧ ossRemove0 net cloudDirPath removes w = (none, w)) ∨
      (removes ≠ [] ∧
        (ossRemove0 net cloudDirPath removes w).2
          = { ext := (net.postRemoveFile cloudDirPath removes w.ext).2,
              log := w.log ++ [Event.postRemoveFile cloudDirPath removes] }) := by
  cases removes with
  | nil => left; exact ⟨rfl, by simp [ossRemove0]⟩
  | cons r rs =>
    right
    refine ⟨by simp, ?_⟩
    unfold ossRemove0
    rw [if_neg (by simp)]
    rcases hp : net.postRemoveFile cloudDirPath (r :: rs) w.ext with ⟨res, s1⟩
    cases res with
    | error e => rfl
    | ok resp =>
      simp only []
      split
      · rfl
      · split <;> rfl

/-- Remote deletions in the sequential schedule of the pool (`uploadDispatch`): the pool
issues no remove request; when the error flag is set or the separate upload of the index
fails, the run issues no remove request and returns that error; otherwise `ossRemove0`
is the last step, and for a non-empty `cloudRemoves` it issues exactly one request,
after every other call, carrying `cloudDirPath` and the whole list.  On an empty list
`ossRemove0` calls nothing and returns nil. -/
theorem remote_removes_after_all_uploads {σ : Type} (net : Net σ)
    (localDirPath cloudDirPath : String) (localUpserts cloudRemoves : List String)
    (w : World σ) :
    removeCalls (uploadPool net localDirPath cloudDirPath localUpserts w).2.world.log
        = removeCalls w.log ∧
      (∀ e, (uploadPool net localDirPath cloudDirPath localUpserts w).2.flag = some e →
        removeCalls (ossUploadFrom net localDirPath cloudDirPath localUpserts cloudRemoves
            w).2.log = removeCalls w.log ∧
          (ossUploadFrom net localDirPath cloudDirPath localUpserts cloudRemoves w).1.err
            = some e) ∧
      (∀ e, (uploadPool net localDirPath cloudDirPath localUpserts w).2.flag = none →
        (indexUpload net localDirPath cloudDirPath localUpserts w).err = some e →
        removeCalls (ossUploadFrom net localDirPath cloudDirPath localUpserts cloudRemoves
            w).2.log = removeCalls w.log ∧
          (ossUploadFrom net localDirPath cloudDirPath localUpserts cloudRemoves w).1.err
            = some e) ∧
      ((uploadPool net localDirPath cloudDirPath localUpserts w).2.flag = none →
        (indexUpload net localDirPath cloudDirPath localUpserts w).err = none →
        (ossUploadFrom net localDirPath cloudDirPath localUpserts cloudRemoves w).2
            = (ossRemove0 net cloudDirPath cloudRemoves
                (indexUpload net localDirPath cloudDirPath localUpserts w).world).2 ∧
          (ossUploadFrom net localDirPath cloudDirPath localUpserts cloudRemoves w).1.err
            = (ossRemove0 net cloudDirPath cloudRemoves
                (indexUpload net localDirPath cloudDirPath localUpserts w).world).1 ∧
          (cloudRemoves ≠ [] →
            (ossUploadFrom net localDirPath cloudDirPath localUpserts cloudRemoves w).2.log
                = (indexUpload net localDirPath cloudDirPath localUpserts w).world.log ++
                    [Event.postRemoveFile cloudDirPath cloudRemoves] ∧
              removeCalls (ossUploadFrom net localDirPath cloudDirPath localUpserts
                  cloudRemoves w).2.log
                = removeCalls w.log ++ [(cloudDirPath, cloudRemoves)]) ∧
          (cloudRemoves = [] →
            ossUploadFrom net localDirPath cloudDirPath localUpserts cloudRemoves w
              = ({ files := (indexUpload net localDirPath cloudDirPath localUpserts w).files,
                   transferSize :=
                    (indexUpload net localDirPath cloudDirPath localUpserts w).transferSize,
                   err := none },
                 (indexUpload net localDirPath cloudDirPath localUpserts w).world))) ∧
      (∀ w' : World σ, ossRemove0 net cloudDirPath [] w' = (none, w')) ∧
      (removeCalls (ossUploadFrom net localDirPath cloudDirPath localUpserts cloudRemoves
            w).2.log ≠ removeCalls w.log →
        (uploadPool net localDirPath cloudDirPath localUpserts w).2.flag = none ∧
          (indexUpload net localDirPath cloudDirPath localUpserts w).err = none) := by
  have hpool : removeCalls (uploadPool net localDirPath cloudDirPath localUpserts w).2.world.log
      = removeCalls w.log :=
    uploadDispatch_removeCalls net localDirPath cloudDirPath
      (net.join localDirPath "index.json") localUpserts "" (poolInit w)
  have hidx : removeCalls (indexUpload net localDirPath cloudDirPath localUpserts w).world.log
      = removeCalls w.log := by
    unfold indexUpload
    rw [ossUpload0_removeCalls, hpool]
  have hfail : ∀ e, (uploadPool net localDirPath cloudDirPath localUpserts w).2.flag = some e →
      removeCalls (ossUploadFrom net localDirPath cloudDirPath localUpserts cloudRemoves
          w).2.log = removeCalls w.log ∧
        (ossUploadFrom net localDirPath cloudDirPath localUpserts cloudRemoves w).1.err
          = some e := by
    intro e he
    rw [ossUploadFrom_of_flag net localDirPath cloudDirPath localUpserts cloudRemoves w e he]
    exact ⟨hpool, rfl⟩
  have hifail : ∀ e, (uploadPool net localDirPath cloudDirPath localUpserts w).2.flag = none →
      (indexUpload net localDirPath cloudDirPath localUpserts w).err = some e →
      removeCalls (ossUploadFrom net localDirPath cloudDirPath localUpserts cloudRemoves
          w).2.log = removeCalls w.log ∧
        (ossUploadFrom net localDirPath cloudDirPath localUpserts cloudRemoves w).1.err
          = some e := by
    intro e hf he
    rw [ossUploadFrom_of_index_err net localDirPath cloudDirPath localUpserts cloudRemoves w e
      hf he]
    exact ⟨hidx, rfl⟩
  refine ⟨hpool, hfail, hifail, ?_, fun w' => by simp [ossRemove0], ?_⟩
  · intro hf hi
    have hres := ossUploadFrom_of_index_ok net localDirPath cloudDirPath localUpserts
      cloudRemoves w hf hi
    have hfiles : (indexUpload net localDirPath cloudDirPath localUpserts w).files
        = (uploadPool net localDirPath cloudDirPath localUpserts w).2.files + 1 :=
      (ossUpload0_counters net localDirPath cloudDirPath _ _ _ _).1 hi
    refine ⟨by rw [hres]; rfl, by rw [hres]; rfl, ?_, ?_⟩
    · intro hne
      rcases ossRemove0_cases net cloudDirPath cloudRemoves
        (indexUpload net localDirPath cloudDirPath localUpserts w).world with ⟨h, _⟩ | ⟨_, h⟩
      · exact absurd h hne
      · have hlog : (ossUploadFrom net localDirPath cloudDirPath localUpserts cloudRemoves
            w).2.log = (indexUpload net localDirPath cloudDirPath localUpserts w).world.log ++
              [Event.postRemoveFile cloudDirPath cloudRemoves] := by
          rw [hres]
          show (ossRemove0 net cloudDirPath cloudRemoves
            (indexUpload net localDirPath cloudDirPath localUpserts w).world).2.log = _
          rw [h]
        refine ⟨hlog, ?_⟩
        rw [hlog, removeCalls_append, hidx]
        rfl
    · intro hnil
      subst hnil
      rw [hres]
      have h0 : ossRemove0 net cloudDirPath []
          (indexUpload net localDirPath cloudDirPath localUpserts w).world
          = (none, (indexUpload net localDirPath cloudDirPath localUpserts w).world) := by
        simp [ossRemove0]
      show (_, (ossRemove0 net cloudDirPath []
        (indexUpload net localDirPath cloudDirPath localUpserts w).world).2) = _
      rw [h0, ← hfiles]
      rfl
  · intro hne
    cases hf : (uploadPool net localDirPath cloudDirPath localUpserts w).2.flag with
    | some e => exact absurd (hfail e hf).1 hne
    | none =>
      cases hi : (indexUpload net localDirPath cloudDirPath localUpserts w).err with
      | some e => exact absurd (hifail e hf hi).1 hne
      | none => exact ⟨rfl, rfl⟩

/-- The sequential schedule on the concrete tree: all uploads succeed and the one remove
request carries the whole list. -/
theorem remote_removes_after_all_uploads_witness :
    (uploadPool demoNet "w" "sync" ["w/a.txt", "w/index.json"] (freshWorld uploadLocal)).2.flag
      = none ∧
    (indexUpload demoNet "w" "sync" ["w/a.txt", "w/index.json"] (freshWorld uploadLocal)).err
      = none ∧
    removeCalls (ossUploadFrom demoNet "w" "sync" ["w/a.txt", "w/index.json"]
        ["old.txt", "gone.txt"] (freshWorld uploadLocal)).2.log
      = removeCalls (freshWorld uploadLocal).log ++ [("sync", ["old.txt", "gone.txt"])] :=
  ⟨by decide, by decide,
    (((remote_removes_after_all_uploads demoNet "w" "sync" ["w/a.txt", "w/index.json"]
      ["old.txt", "gone.txt"] (freshWorld uploadLocal)).2.2.2.1
        (by decide) (by decide)).2.2.1 (by decide)).2⟩

/-! ## The index upload when the index file is not among the upserts -/

theorem ossUpload_unfold {σ : Type} (net : Net σ) (localDirPath cloudDirPath cloudDevice : String)
    (w : World σ) (h : net.isExist localDirPath w.ext = true) :
    ossUpload net localDirPath cloudDirPath cloudDevice w =
      match uploadListing net cloudDirPath cloudDevice w with
      | (.error err, w1) => ({ files := 0, transferSize := 0, err := some err }, w1)
      | (.ok cloudFileList, w1) =>
        match (cloudUpsertRemoveListOSS net.toOps localDirPath cloudFileList w1.ext).1.err with
        | some err =>
          ({ files := 0, transferSize := 0, err := some err },
            { ext := (cloudUpsertRemoveListOSS net.toOps localDirPath cloudFileList w1.ext).2,
              log := w1.log })
        | none =>
          ossUploadFrom net localDirPath cloudDirPath
            (cloudUpsertRemoveListOSS net.toOps localDirPath cloudFileList w1.ext).1.localUpserts
            (cloudUpsertRemoveListOSS net.toOps localDirPath cloudFileList w1.ext).1.cloudRemoves
            { ext := (cloudUpsertRemoveListOSS net.toOps localDirPath cloudFileList w1.ext).2,
              log := w1.log } := by
  unfold ossUpload uploadListing
  simp only [h, Bool.not_true, Bool.false_eq_true, if_false]

theorem ossUpload0_of_stat_error {σ : Type} (net : Net σ)
    (localDirPath cloudDirPath localUpsert : String) (wroteFiles transferSize : Nat)
    (w : World σ) (e : String) (h : net.stat localUpsert w.ext = .error e) :
    ossUpload0 net localDirPath cloudDirPath localUpsert wroteFiles transferSize w =
      { world := { ext := w.ext, log := w.log ++ [Event.stat localUpsert] },
        files := wroteFiles, transferSize := transferSize, err := some e } := by
  unfold ossUpload0
  rw [h]
  rfl

theorem ossUploadFrom_without_index {σ : Type} (net : Net σ)
    (localDirPath cloudDirPath : String) (localUpserts cloudRemoves : List String)
    (w : World σ) (e : String)
    (hidx : net.join localDirPath "index.json" ∉ localUpserts)
    (hflag : (uploadPool net localDirPath cloudDirPath localUpserts w).2.flag = none)
    (hstat : net.stat "" (uploadPool net localDirPath cloudDirPath localUpserts w).2.world.ext
      = .error e) :
    ossUploadFrom net localDirPath cloudDirPath localUpserts cloudRemoves w =
      ({ files := localUpserts.length,
         transferSize := (uploadPool net localDirPath cloudDirPath localUpserts w).2.transferSize,
         err := some e },
       { ext := (uploadPool net localDirPath cloudDirPath localUpserts w).2.world.ext,
         log := (uploadPool net localDirPath cloudDirPath localUpserts w).2.world.log ++
          [Event.stat ""] }) := by
  have hvar : (uploadPool net localDirPath cloudDirPath localUpserts w).1 = "" := by
    have := uploadDispatch_index net localDirPath cloudDirPath
      (net.join localDirPath "index.json") localUpserts "" (poolInit w)
    rw [if_neg hidx] at this
    exact this
  have hfilter : localUpserts.filter (· ≠ net.join localDirPath "index.json") = localUpserts := by
    rw [List.filter_eq_self]
    intro a ha
    have : a ≠ net.join localDirPath "index.json" := fun h => hidx (h ▸ ha)
    simpa using this
  have hfiles : (uploadPool net localDirPath cloudDirPath localUpserts w).2.files
      = localUpserts.length := by
    have := (uploadDispatch_ok net localDirPath cloudDirPath
      (net.join localDirPath "index.json") localUpserts "" (poolInit w) rfl hflag).1
    rw [hfilter] at this
    simpa [poolInit] using this
  have hup := ossUpload0_of_stat_error net localDirPath cloudDirPath ""
    (uploadPool net localDirPath cloudDirPath localUpserts w).2.files
    (uploadPool net localDirPath cloudDirPath localUpserts w).2.transferSize
    (uploadPool net localDirPath cloudDirPath localUpserts w).2.world e hstat
  rw [← hvar] at hup
  rw [ossUploadFrom_of_index_err net localDirPath cloudDirPath localUpserts cloudRemoves w e
    hflag (by rw [hup]), hup, hfiles, hvar]

theorem ossUploadFrom_err_of_no_index {σ : Type} (net : Net σ)
    (localDirPath cloudDirPath : String) (localUpserts cloudRemoves : List String)
    (w : World σ) (hstat : ∀ s, ∃ e, net.stat "" s = .error e)
    (hidx : net.join localDirPath "index.json" ∉ localUpserts) :
    (∃ e, (ossUploadFrom net localDirPath cloudDirPath localUpserts cloudRemoves w).1.err
        = some e) ∧
      removeCalls (ossUploadFrom net localDirPath cloudDirPath localUpserts cloudRemoves w).2.log
        = removeCalls w.log := by
  have hpool : removeCalls (uploadPool net localDirPath cloudDirPath localUpserts w).2.world.log
      = removeCalls w.log :=
    uploadDispatch_removeCalls net localDirPath cloudDirPath
      (net.join localDirPath "index.json") localUpserts "" (poolInit w)
  cases hf : (uploadPool net localDirPath cloudDirPath localUpserts w).2.flag with
  | some e =>
    rw [ossUploadFrom_of_flag net localDirPath cloudDirPath localUpserts cloudRemoves w e hf]
    exact ⟨⟨e, rfl⟩, hpool⟩
  | none =>
    obtain ⟨e, he⟩ := hstat (uploadPool net localDirPath cloudDirPath localUpserts w).2.world.ext
    rw [ossUploadFrom_without_index net localDirPath cloudDirPath localUpserts cloudRemoves w e
      hidx hf he]
    refine ⟨⟨e, rfl⟩, ?_⟩
    simp only []
    rw [removeCalls_append, hpool]
    simp [removeCalls]

/-- C12: `ossUpload` starts the separate upload of the index exactly when no upload of the
batch failed, whether or not `localDirPath/index.json` is among `localUpserts`; the
variable `index` it is started on is the empty path when the index file is not among
them.  Given that `os.Stat` fails on the empty path: in that case, after the other
uploads were performed, the only further call is the failing `os.Stat("")`, `ossUpload`
returns its error with the counters of the other uploads, and no remove request is
issued.  So a nil result implies that the index file was in `localUpserts`, also for the
whole of `ossUpload` on an existing `localDirPath`. -/
theorem index_upload_with_empty_path {σ : Type} (net : Net σ)
    (localDirPath cloudDirPath : String) (localUpserts cloudRemoves : List String)
    (w : World σ) (hstat : ∀ s, ∃ e, net.stat "" s = .error e) :
    (uploadPool net localDirPath cloudDirPath localUpserts w).1
        = (if net.join localDirPath "index.json" ∈ localUpserts
            then net.join localDirPath "index.json" else "") ∧
      ((∃ rest,
          (ossUploadFrom net localDirPath cloudDirPath localUpserts cloudRemoves w).2.log
            = (uploadPool net localDirPath cloudDirPath localUpserts w).2.world.log ++
                Event.stat (uploadPool net localDirPath cloudDirPath localUpserts w).1 :: rest) ↔
        (uploadPool net localDirPath cloudDirPath localUpserts w).2.flag = none) ∧
      (net.join localDirPath "index.json" ∉ localUpserts →
        (uploadPool net localDirPath cloudDirPath localUpserts w).2.flag = none →
        ∃ e, net.stat "" (uploadPool net localDirPath cloudDirPath localUpserts w).2.world.ext
            = .error e ∧
          ossUploadFrom net localDirPath cloudDirPath localUpserts cloudRemoves w =
            ({ files := localUpserts.length,
               transferSize :=
                (uploadPool net localDirPath cloudDirPath localUpserts w).2.transferSize,
               err := some e },
             { ext := (uploadPool net localDirPath cloudDirPath localUpserts w).2.world.ext,
               log := (uploadPool net localDirPath cloudDirPath localUpserts w).2.world.log ++
                [Event.stat ""] })) ∧
      (net.join localDirPath "index.json" ∉ localUpserts →
        (∃ e, (ossUploadFrom net localDirPath cloudDirPath localUpserts cloudRemoves w).1.err
            = some e) ∧
          removeCalls
              (ossUploadFrom net localDirPath cloudDirPath localUpserts cloudRemoves w).2.log
            = removeCalls w.log) ∧
      ((ossUploadFrom net localDirPath cloudDirPath localUpserts cloudRemoves w).1.err = none →
        net.join localDirPath "index.json" ∈ localUpserts) ∧
      (∀ cloudDevice : String, net.isExist localDirPath w.ext = true →
        (ossUpload net localDirPath cloudDirPath cloudDevice w).1.err = none →
        ∃ cloudFileList w1,
          uploadListing net cloudDirPath cloudDevice w = (.ok cloudFileList, w1) ∧
          (cloudUpsertRemoveListOSS net.toOps localDirPath cloudFileList w1.ext).1.err = none ∧
          net.join localDirPath "index.json" ∈
            (cloudUpsertRemoveListOSS net.toOps localDirPath cloudFileList
              w1.ext).1.localUpserts) := by
  have hnil : ∀ (ups rms : List String) (w' : World σ),
      (ossUploadFrom net localDirPath cloudDirPath ups rms w').1.err = none →
      net.join localDirPath "index.json" ∈ ups := by
    intro ups rms w' h
    by_contra hidx
    obtain ⟨⟨e, he⟩, _⟩ := ossUploadFrom_err_of_no_index net localDirPath cloudDirPath ups rms
      w' hstat hidx
    rw [he] at h
    exact absurd h (by simp)
  refine ⟨uploadDispatch_index net localDirPath cloudDirPath
    (net.join localDirPath "index.json") localUpserts "" (poolInit w), ?_, ?_, ?_,
    hnil localUpserts cloudRemoves w, ?_⟩
  · constructor
    · rintro ⟨rest, hrest⟩
      cases hf : (uploadPool net localDirPath cloudDirPath localUpserts w).2.flag with
      | none => rfl
      | some e =>
        rw [ossUploadFrom_of_flag net localDirPath cloudDirPath localUpserts cloudRemoves w e
          hf] at hrest
        have := congrArg List.length hrest
        simp at this
    · intro hf
      obtain ⟨evs, hl, _, _⟩ := ossUpload0_log net localDirPath cloudDirPath
        (uploadPool net localDirPath cloudDirPath localUpserts w).1
        (uploadPool net localDirPath cloudDirPath localUpserts w).2.files
        (uploadPool net localDirPath cloudDirPath localUpserts w).2.transferSize
        (uploadPool net localDirPath cloudDirPath localUpserts w).2.world
      cases hr : (ossUpload0 net localDirPath cloudDirPath
        (uploadPool net localDirPath cloudDirPath localUpserts w).1
        (uploadPool net localDirPath cloudDirPath localUpserts w).2.files
        (uploadPool net localDirPath cloudDirPath localUpserts w).2.transferSize
        (uploadPool net localDirPath cloudDirPath localUpserts w).2.world).err with
      | some e =>
        rw [ossUploadFrom_of_index_err net localDirPath cloudDirPath localUpserts cloudRemoves
          w e hf hr]
        exact ⟨evs, hl⟩
      | none =>
        rw [ossUploadFrom_of_index_ok net localDirPath cloudDirPath localUpserts cloudRemoves
          w hf hr]
        obtain ⟨evs2, hl2, _⟩ := ossRemove0_log net cloudDirPath cloudRemoves
          (ossUpload0 net localDirPath cloudDirPath
            (uploadPool net localDirPath cloudDirPath localUpserts w).1
            (uploadPool net localDirPath cloudDirPath localUpserts w).2.files
            (uploadPool net localDirPath cloudDirPath localUpserts w).2.transferSize
            (uploadPool net localDirPath cloudDirPath localUpserts w).2.world).world
        refine ⟨evs ++ evs2, ?_⟩
        simp only []
        rw [hl2, hl]
        simp
  · intro hidx hf
    obtain ⟨e, he⟩ := hstat (uploadPool net localDirPath cloudDirPath localUpserts w).2.world.ext
    exact ⟨e, he, ossUploadFrom_without_index net localDirPath cloudDirPath localUpserts
      cloudRemoves w e hidx hf he⟩
  · intro hidx
    exact ossUploadFrom_err_of_no_index net localDirPath cloudDirPath localUpserts cloudRemoves
      w hstat hidx
  · intro cloudDevice hex herr
    rw [ossUpload_unfold net localDirPath cloudDirPath cloudDevice w hex] at herr
    rcases hl : uploadListing net cloudDirPath cloudDevice w with ⟨res, w1⟩
    rw [hl] at herr
    cases res with
    | error e => simp at herr
    | ok cloudFileList =>
      simp only at herr
      cases hd : (cloudUpsertRemoveListOSS net.toOps localDirPath cloudFileList w1.ext).1.err with
      | some e =>
        rw [hd] at herr
        simp at herr
      | none =>
        rw [hd] at herr
        exact ⟨cloudFileList, w1, rfl, hd, hnil _ _ _ herr⟩

/-- Witness for C12: in the concrete world `os.Stat("")` fails in every state, and with
`w/index.json` left out of the upserts the run ends with that error after the upload of
`w/a.txt`. -/
theorem index_upload_with_empty_path_witness :
    (∀ s, ∃ e, demoNet.stat "" s = .error e) ∧
    (ossUploadFrom demoNet "w" "sync" ["w/a.txt"] ["old.txt"] (freshWorld uploadLocal)).1
      = { files := 1, transferSize := 10, err := some "stat : no such file or directory" } ∧
    removeCalls
        (ossUploadFrom demoNet "w" "sync" ["w/a.txt"] ["old.txt"] (freshWorld uploadLocal)).2.log
      = removeCalls (freshWorld uploadLocal).log :=
  ⟨fun _ => ⟨"stat : no such file or directory", rfl⟩, by decide,
    ((index_upload_with_empty_path demoNet "w" "sync" ["w/a.txt"] ["old.txt"]
      (freshWorld uploadLocal) (fun _ => ⟨"stat : no such file or directory", rfl⟩)).2.2.2.1
        (by decide)).2⟩

/-! ## The upload pool with interleaved workers -/

theorem runPoolSteps_worker {σ : Type} (net : Net σ) (localDirPath cloudDirPath : String)
    (arg : String) (st : PoolState σ) :
    runPoolSteps net localDirPath cloudDirPath
        [.invoke arg, .enter arg, .transfer arg, .observe arg]
        { shared := st, entered := [], returned := [] }
      = { shared := uploadWorker net localDirPath cloudDirPath arg (st.invoked arg),
          entered := [], returned := [] } := by
  cases hf : st.flag with
  | some e =>
    have hf' : (st.invoked arg).flag = some e := hf
    rw [uploadWorker_of_flag net localDirPath cloudDirPath arg e _ hf']
    simp [runPoolSteps, poolStep, PoolState.invoked, hf]
  | none =>
    have hf' : (st.invoked arg).flag = none := hf
    cases hr : (ossUpload0 net localDirPath cloudDirPath arg (st.invoked arg).files
      (st.invoked arg).transferSize (st.invoked arg).world).err with
    | some e =>
      have hc := (ossUpload0_counters net localDirPath cloudDirPath arg (st.invoked arg).files
        (st.invoked arg).transferSize (st.invoked arg).world).2 e hr
      rw [uploadWorker_of_err net localDirPath cloudDirPath arg e _ hf' hr]
      simp only [PoolState.invoked] at hr hc ⊢
      simp [runPoolSteps, poolStep, PoolState.invoked, hf, hr, hc.1, hc.2]
    | none =>
      have hc := (ossUpload0_counters net localDirPath cloudDirPath arg (st.invoked arg).files
        (st.invoked arg).transferSize (st.invoked arg).world).1 hr
      rw [uploadWorker_of_ok net localDirPath cloudDirPath arg _ hf' hr]
      simp only [PoolState.invoked] at hr hc ⊢
      simp [runPoolSteps, poolStep, PoolState.invoked, hf, hr, hc]

theorem ossUploadFrom_eq_rest {σ : Type} (net : Net σ) (localDirPath cloudDirPath : String)
    (localUpserts cloudRemoves : List String) (w : World σ) :
    ossUploadFrom net localDirPath cloudDirPath localUpserts cloudRemoves w
      = ossUploadRest net localDirPath cloudDirPath cloudRemoves
          (uploadPool net localDirPath cloudDirPath localUpserts w).1
          (uploadPool net localDirPath cloudDirPath localUpserts w).2 := by
  unfold ossUploadFrom ossUploadRest
  rcases uploadPool net localDirPath cloudDirPath localUpserts w with ⟨index, st⟩
  rfl

/-- C8: the code breaks the claim in a run of the pool with two workers.  On the upserts
`w/a.txt`, `w/b.txt`, `w/index.json` the upload of `w/a.txt` fails when its worker runs
line 347, the worker on `w/b.txt` then overwrites the shared `err` with nil, and the
worker on `w/a.txt` finds `err` nil at line 348: `uploadErr` is nil when the pool has
been waited for, `ossUpload0` is started on `w/index.json` and `ossUpload` returns nil
with two files written.  In the sequential schedule the same input returns the error of
`w/a.txt`. -/
theorem index_uploaded_after_lost_failure :
    (ossUpload0 demoNet "w" "sync" "w/a.txt" 0 0
        (runPoolSteps demoNet "w" "sync" (lostFailureSchedule.take 4)
          { shared := poolInit (freshWorld lostFailureWorld), entered := [],
            returned := [] }).shared.world).err = some "L94: put failed" ∧
    lostFailurePool.flag = none ∧
    lostFailureRun.2.log =
      [.invoke "w/a.txt", .invoke "w/b.txt",
       .stat "w/a.txt", .postUploadToken "sync" "/a.txt" 10,
       .putFile "token:/a.txt" "siyuan/u1/sync/a.txt" "w/a.txt", .sleep 3,
       .putFile "token:/a.txt" "siyuan/u1/sync/a.txt" "w/a.txt",
       .stat "w/b.txt", .postUploadToken "sync" "/b.txt" 20,
       .putFile "token:/b.txt" "siyuan/u1/sync/b.txt" "w/b.txt",
       .stat "w/index.json", .postUploadToken "sync" "/index.json" 2,
       .putFile "token:/index.json" "siyuan/u1/sync/index.json" "w/index.json",
       .postRemoveFile "sync" ["old.txt"]] ∧
    lostFailureRun.1 = { files := 2, transferSize := 22, err := none } ∧
    (ossUploadFrom demoNet "w" "sync" ["w/a.txt", "w/b.txt", "w/index.json"] ["old.txt"]
        (freshWorld lostFailureWorld)).1
      = { files := 0, transferSize := 0, err := some "L94: put failed" } := by
  decide

/-- C11: the code breaks the claim in the run of C8 with two workers.  The upload of
`w/a.txt` fails, its error is lost in the shared `err`, and `ossUpload` goes on to issue
the remove request for `old.txt` and returns nil.  In the sequential schedule the same
input issues no remove request. -/
theorem remove_request_after_lost_failure :
    (ossUpload0 demoNet "w" "sync" "w/a.txt" 0 0
        (runPoolSteps demoNet "w" "sync" (lostFailureSchedule.take 4)
          { shared := poolInit (freshWorld lostFailureWorld), entered := [],
            returned := [] }).shared.world).err = some "L94: put failed" ∧
    removeCalls lostFailureRun.2.log = [("sync", ["old.txt"])] ∧
    lostFailureRun.1.err = none ∧
    removeCalls (ossUploadFrom demoNet "w" "sync" ["w/a.txt", "w/b.txt", "w/index.json"]
        ["old.txt"] (freshWorld lostFailureWorld)).2.log = [] := by
  decide

end OssSync
